import Mathlib

/-!
# Verification of the cross-modal recommendation system core

Shallow embedding of the hybrid retrieval & ranking pipeline of the
repository (FAISS index wrapper, fusion engine, Redis cache manager,
search services), with theorems settling the frozen claims.

Python floats are modelled as real numbers (`ℝ`), numpy vectors as
`List ℝ`, Python dicts holding product metadata as structures with
`Option` fields (key presence = `some`), and fallible code as
`Option`-returning functions.  The FAISS ANN index is modelled as an
exact inner-product search over the stored vectors, which is the
reading the source itself assumes ("for IP this is similarity").
MD5 fingerprints are modelled as the identity (an injective hash).
-/

open Classical

namespace CMRS

/-! ## Vector primitives (numpy operations used by the sources) -/

/-- A numpy 1-d float vector. -/
abbrev Vec := List ℝ

/-- Sum of squares of the entries (the square of `np.linalg.norm`). -/
def sumSq (v : Vec) : ℝ := (v.map (fun x => x * x)).sum

/-- Embedding of `np.linalg.norm v`: the L2 norm. -/
noncomputable def l2norm (v : Vec) : ℝ := Real.sqrt (sumSq v)

/-- Embedding of `np.dot u v` for 1-d arrays. -/
def dot (u v : Vec) : ℝ := (List.zipWith (fun a b => a * b) u v).sum

/-- Vector addition `u + v` (numpy elementwise). -/
def vadd (u v : Vec) : Vec := List.zipWith (fun a b => a + b) u v

/-- Scalar multiplication `a * v` (numpy broadcasting). -/
def vsmul (a : ℝ) (v : Vec) : Vec := v.map (fun x => a * x)

/-- Elementwise (Hadamard) product `u * v`. -/
def vmul (u v : Vec) : Vec := List.zipWith (fun a b => a * b) u v

/-- Embedding of `v / np.linalg.norm(v)`, as used (without a zero guard) in
`faiss_index.py`.  Lean's `x / 0 = 0` convention makes the zero-vector
case total; all theorems that touch it restrict to nonzero vectors. -/
noncomputable def normalize (v : Vec) : Vec := v.map (fun x => x / l2norm v)

/-- Cosine similarity `dot u v / (‖u‖ * ‖v‖)`. -/
noncomputable def cosineSim (u v : Vec) : ℝ := dot u v / (l2norm u * l2norm v)

theorem sumSq_nonneg (v : Vec) : 0 ≤ sumSq v := by
  induction v with
  | nil => simp [sumSq]
  | cons a t ih =>
    simp only [sumSq, List.map_cons, List.sum_cons] at *
    nlinarith [mul_self_nonneg a]

theorem sumSq_cons (a : ℝ) (t : Vec) : sumSq (a :: t) = a * a + sumSq t := by
  simp [sumSq]

theorem l2norm_nonneg (v : Vec) : 0 ≤ l2norm v := Real.sqrt_nonneg _

theorem sq_l2norm (v : Vec) : l2norm v * l2norm v = sumSq v := by
  simpa [l2norm] using Real.mul_self_sqrt (sumSq_nonneg v)

theorem l2norm_eq_zero_iff (v : Vec) : l2norm v = 0 ↔ sumSq v = 0 := by
  constructor
  · intro h
    have := sq_l2norm v
    rw [h] at this
    linarith
  · intro h
    simp [l2norm, h]

theorem sumSq_vsmul (a : ℝ) (v : Vec) : sumSq (vsmul a v) = a * a * sumSq v := by
  induction v with
  | nil => simp [sumSq, vsmul]
  | cons b t ih =>
    simp only [vsmul, List.map_cons, sumSq_cons] at *
    rw [ih]
    ring

theorem normalize_eq_vsmul (v : Vec) :
    normalize v = vsmul (1 / l2norm v) v := by
  simp [normalize, vsmul, div_eq_mul_inv, mul_comm]

/-- Squared norm of a normalized vector: `1` for a nonzero vector,
`0` for the zero vector. -/
theorem sumSq_normalize (v : Vec) :
    sumSq (normalize v) = if sumSq v = 0 then 0 else 1 := by
  rw [normalize_eq_vsmul, sumSq_vsmul]
  by_cases h : sumSq v = 0
  · simp [h]
  · have hn : l2norm v ≠ 0 := fun hz => h ((l2norm_eq_zero_iff v).mp hz)
    have : 1 / l2norm v * (1 / l2norm v) * sumSq v
        = sumSq v / (l2norm v * l2norm v) := by ring
    rw [if_neg h, this, sq_l2norm, div_self h]

/-- Normalizing an already unit vector is the identity. -/
theorem normalize_of_sumSq_one {v : Vec} (h : sumSq v = 1) : normalize v = v := by
  have h1 : l2norm v = 1 := by simp [l2norm, h]
  simp [normalize, h1]

/-- Cauchy–Schwarz for list dot products. -/
theorem dot_sq_le_sumSq_mul_sumSq (u v : Vec) :
    dot u v * dot u v ≤ sumSq u * sumSq v := by
  induction u generalizing v with
  | nil => simp [dot, sumSq]
  | cons a tu ih =>
    cases v with
    | nil =>
      simp only [dot, List.zipWith_nil_right, List.sum_nil]
      nlinarith [sumSq_nonneg (a :: tu), sumSq_nonneg ([] : Vec)]
    | cons b tv =>
      have h := ih tv
      have h1 : 0 ≤ sumSq tu := sumSq_nonneg tu
      have h2 : 0 ≤ sumSq tv := sumSq_nonneg tv
      set d := (List.zipWith (fun a b => a * b) tu tv).sum with hd
      set x := Real.sqrt (sumSq tu) with hx
      set y := Real.sqrt (sumSq tv) with hy
      have hx0 : 0 ≤ x := Real.sqrt_nonneg _
      have hy0 : 0 ≤ y := Real.sqrt_nonneg _
      have hx2 : x * x = sumSq tu := Real.mul_self_sqrt h1
      have hy2 : y * y = sumSq tv := Real.mul_self_sqrt h2
      have hdle : |d| ≤ x * y := by
        have hxy0 : (0:ℝ) ≤ x * y := mul_nonneg hx0 hy0
        have hpow : (x * y) ^ 2 = sumSq tu * sumSq tv := by
          rw [mul_pow, pow_two, pow_two, hx2, hy2]
        have hsq : d ^ 2 ≤ (x * y) ^ 2 := by
          rw [hpow, pow_two]
          exact h
        have hs := Real.sqrt_le_sqrt hsq
        rwa [Real.sqrt_sq_eq_abs, Real.sqrt_sq hxy0] at hs
      have key1 : 2 * a * b * d ≤ 2 * |a| * |b| * (x * y) := by
        calc 2 * a * b * d ≤ |2 * a * b * d| := le_abs_self _
          _ = 2 * |a| * |b| * |d| := by
              rw [abs_mul, abs_mul, abs_mul]
              norm_num
          _ ≤ 2 * |a| * |b| * (x * y) := by
              apply mul_le_mul_of_nonneg_left hdle
              positivity
      have key2 : 2 * |a| * |b| * (x * y) ≤ a ^ 2 * sumSq tv + b ^ 2 * sumSq tu := by
        nlinarith [sq_nonneg (|a| * y - |b| * x), sq_abs a, sq_abs b]
      simp only [dot, ← hd] at h
      simp only [dot, List.zipWith_cons_cons, List.sum_cons, sumSq_cons, ← hd]
      nlinarith [h, key1, key2, mul_nonneg h1 h2]

/-- The dot product of two vectors of squared norm at most one lies in `[-1, 1]`. -/
theorem dot_mem_Icc_of_sumSq_le_one {u v : Vec}
    (hu : sumSq u ≤ 1) (hv : sumSq v ≤ 1) : -1 ≤ dot u v ∧ dot u v ≤ 1 := by
  have h := dot_sq_le_sumSq_mul_sumSq u v
  have h1 : 0 ≤ sumSq u := sumSq_nonneg u
  have h2 : 0 ≤ sumSq v := sumSq_nonneg v
  constructor <;> nlinarith

theorem sumSq_normalize_le_one (v : Vec) : sumSq (normalize v) ≤ 1 := by
  rw [sumSq_normalize]
  split <;> norm_num

/-! ## FusionEngine (`app/models/fusion.py`)

Match-score dictionaries are modelled as ordered association lists so
that the single-modality dictionaries (two keys) and the dual-modality
dictionary (four keys) keep their exact source shape. -/

namespace FusionEngine

/-- Embedding of `FusionEngine._normalize`: L2 normalization guarded against the
zero vector (returns the input unchanged when the norm is zero). -/
noncomputable def FE_normalize (embedding : Vec) : Vec :=
  if l2norm embedding = 0 then embedding
  else embedding.map (fun x => x / l2norm embedding)

/-- Embedding of `FusionEngine._weighted_avg_fusion`: `normalize(α·img + (1-α)·txt)`. -/
noncomputable def weighted_avg_fusion (img_emb txt_emb : Vec) (alpha : ℝ) : Vec :=
  FE_normalize (vadd (vsmul alpha img_emb) (vsmul (1 - alpha) txt_emb))

/-- Embedding of `FusionEngine._concatenation_fusion`: `normalize(img ++ txt)`. -/
noncomputable def concatenation_fusion (img_emb txt_emb : Vec) : Vec :=
  FE_normalize (img_emb ++ txt_emb)

/-- Embedding of `FusionEngine._element_wise_fusion`: `normalize(img ⊙ txt)`. -/
noncomputable def element_wise_fusion (img_emb txt_emb : Vec) : Vec :=
  FE_normalize (vmul img_emb txt_emb)

/-- Embedding of `FusionEngine._compute_match_scores`. -/
noncomputable def compute_match_scores (image_embedding text_embedding fused_embedding : Vec)
    (alpha : ℝ) : List (String × ℝ) :=
  [("image_contribution", alpha),
   ("text_contribution", 1 - alpha),
   ("image_text_alignment", (dot image_embedding text_embedding + 1) / 2),
   ("fusion_quality",
     (alpha * dot fused_embedding image_embedding
       + (1 - alpha) * dot fused_embedding text_embedding + 1) / 2)]

/-- Embedding of `FusionEngine.fuse`; a `none` output models the raised `ValueError`
(no modality, or unknown method). -/
noncomputable def fuse (image_embedding text_embedding : Option Vec) (alpha : ℝ)
    (method : String) : Option (Vec × List (String × ℝ)) :=
  match image_embedding, text_embedding with
  | none, none => none
  | none, some t => some (t, [("text_contribution", 1), ("image_contribution", 0)])
  | some i, none => some (i, [("image_contribution", 1), ("text_contribution", 0)])
  | some i, some t =>
    let i' := FE_normalize i
    let t' := FE_normalize t
    let fused :=
      if method = "weighted_avg" then some (weighted_avg_fusion i' t' alpha)
      else if method = "concatenation" then some (concatenation_fusion i' t')
      else if method = "element_wise" then some (element_wise_fusion i' t')
      else none
    fused.map (fun f => (f, compute_match_scores i' t' f alpha))

/-- Product-feature dict as consumed by `rerank_with_diversity`
(only the `category` key is read, with default `'unknown'`). -/
structure PFeature where
  category : Option String

/-- The `for i, category in enumerate(categories)` loop of
`rerank_with_diversity`, carrying the `selected_categories`
accumulator.  Surplus scores beyond the category list are returned
unchanged, as in the source. -/
noncomputable def rerankLoop (dw : ℝ) : List ℝ → List String → List String → List ℝ
  | ss, [], _ => ss
  | [], _ :: _, _ => []
  | s :: ss, c :: cs, selected =>
    (if c ∈ selected then s * (1 - dw * (selected.count c : ℝ)) else s)
      :: rerankLoop dw ss cs (selected ++ [c])

/-- Embedding of `FusionEngine.rerank_with_diversity`. -/
noncomputable def rerank_with_diversity (scores : List ℝ) (product_features : List PFeature)
    (diversity_weight : ℝ) : List ℝ :=
  if diversity_weight = 0 then scores
  else
    rerankLoop diversity_weight scores
      (product_features.map (fun p => p.category.getD "unknown")) []

theorem rerankLoop_get? (dw : ℝ) :
    ∀ (ss : List ℝ) (cs sel : List String) (i : ℕ) (s : ℝ) (c : String),
      ss.get? i = some s → cs.get? i = some c →
      (rerankLoop dw ss cs sel).get? i
        = some (s * (1 - dw * (((sel ++ cs.take i).count c : ℕ) : ℝ)))
  | [], _, _, i, s, c => by intro h _; simp at h
  | _ :: _, [], _, i, s, c => by intro _ h; simp at h
  | s0 :: ss, c0 :: cs, sel, 0, s, c => by
    intro hs hc
    simp only [List.get?] at hs hc
    cases hs
    cases hc
    simp only [rerankLoop, List.take_zero, List.append_nil, List.get?]
    by_cases hmem : c0 ∈ sel
    · simp [hmem]
    · have : sel.count c0 = 0 := List.count_eq_zero.mpr hmem
      simp [hmem, this]
  | s0 :: ss, c0 :: cs, sel, i + 1, s, c => by
    intro hs hc
    simp only [List.get?] at hs hc
    have ih := rerankLoop_get? dw ss cs (sel ++ [c0]) i s c hs hc
    simp only [rerankLoop, List.get?]
    rw [ih]
    simp [List.append_assoc]

theorem forall2_le_refl : ∀ l : List ℝ, List.Forall₂ (fun r s => r ≤ s) l l
  | [] => List.Forall₂.nil
  | a :: t => List.Forall₂.cons (le_refl a) (forall2_le_refl t)

theorem rerankLoop_le (dw : ℝ) (h0 : 0 ≤ dw) :
    ∀ (ss : List ℝ) (cs sel : List String), (∀ s ∈ ss, 0 ≤ s) →
      List.Forall₂ (fun r s => r ≤ s) (rerankLoop dw ss cs sel) ss
  | ss, [], sel => by
    intro _
    have h : rerankLoop dw ss [] sel = ss := by cases ss <;> simp [rerankLoop]
    rw [h]
    exact forall2_le_refl ss
  | [], _ :: _, _ => by
    intro _
    simp [rerankLoop]
  | s0 :: ss, c0 :: cs, sel => by
    intro hnn
    simp only [rerankLoop]
    constructor
    · split
      · apply mul_le_of_le_one_right (hnn s0 (by simp))
        have : (0:ℝ) ≤ dw * (sel.count c0 : ℝ) := by positivity
        linarith
      · exact le_refl s0
    · exact rerankLoop_le dw h0 ss cs (sel ++ [c0])
        (fun s hs => hnn s (List.mem_cons_of_mem _ hs))

theorem FE_normalize_of_ne (u : Vec) (h : l2norm u ≠ 0) : FE_normalize u = normalize u := by
  simp [FE_normalize, h, normalize]

theorem l2norm_FE_normalize (u : Vec) (h : sumSq (FE_normalize u) ≠ 0) :
    l2norm (FE_normalize u) = 1 := by
  by_cases h0 : l2norm u = 0
  · exfalso
    apply h
    rw [FE_normalize, if_pos h0]
    exact (l2norm_eq_zero_iff u).mp h0
  · rw [FE_normalize_of_ne u h0]
    have hs : sumSq u ≠ 0 := fun hz => h0 ((l2norm_eq_zero_iff u).mpr hz)
    rw [l2norm, sumSq_normalize, if_neg hs, Real.sqrt_one]

end FusionEngine

/-- C6: the spec claims every `fuse` output is unit-normalized.  As
stated this is false (see `claim_C6_counterexample`): a single-modality
call returns the input embedding unchanged, and a dual-modality call
whose combined vector is zero returns the zero vector.  Amended: a
dual-modality `fuse` output that is nonzero has L2 norm exactly 1, and
single-modality calls return the input embedding unchanged. -/
theorem claim_C6_fuse_norm :
    (∀ (i t : Vec) (a : ℝ) (m : String) (r : Vec) (ms : List (String × ℝ)),
        FusionEngine.fuse (some i) (some t) a m = some (r, ms) →
        sumSq r ≠ 0 → l2norm r = 1)
    ∧ (∀ (i : Vec) (a : ℝ) (m : String),
        FusionEngine.fuse (some i) none a m
          = some (i, [("image_contribution", 1), ("text_contribution", 0)]))
    ∧ (∀ (t : Vec) (a : ℝ) (m : String),
        FusionEngine.fuse none (some t) a m
          = some (t, [("text_contribution", 1), ("image_contribution", 0)])) := by
  refine ⟨?_, fun i a m => rfl, fun t a m => rfl⟩
  intro i t a m r ms hf hr
  simp only [FusionEngine.fuse] at hf
  split_ifs at hf with h1 h2 h3
  · simp only [Option.map_some', Option.some.injEq, Prod.mk.injEq] at hf
    obtain ⟨hrr, -⟩ := hf
    subst hrr
    simp only [FusionEngine.weighted_avg_fusion] at hr ⊢
    exact FusionEngine.l2norm_FE_normalize _ hr
  · simp only [Option.map_some', Option.some.injEq, Prod.mk.injEq] at hf
    obtain ⟨hrr, -⟩ := hf
    subst hrr
    simp only [FusionEngine.concatenation_fusion] at hr ⊢
    exact FusionEngine.l2norm_FE_normalize _ hr
  · simp only [Option.map_some', Option.some.injEq, Prod.mk.injEq] at hf
    obtain ⟨hrr, -⟩ := hf
    subst hrr
    simp only [FusionEngine.element_wise_fusion] at hr ⊢
    exact FusionEngine.l2norm_FE_normalize _ hr
  · simp at hf

/-- Witness for C6 at a concrete dual-modality input. -/
theorem claim_C6_witness :
    FusionEngine.fuse (some [1, 0]) (some [0, 1]) 1 "weighted_avg"
      = some ([1, 0], [("image_contribution", 1), ("text_contribution", 0),
          ("image_text_alignment", 1 / 2), ("fusion_quality", 1)])
    ∧ sumSq [(1:ℝ), 0] ≠ 0 ∧ l2norm [(1:ℝ), 0] = 1 := by
  have e1 : sumSq [(1:ℝ), 0] = 1 := by norm_num [sumSq]
  have n1 : l2norm [(1:ℝ), 0] = 1 := by rw [l2norm, e1, Real.sqrt_one]
  have e2 : sumSq [(0:ℝ), 1] = 1 := by norm_num [sumSq]
  have n2 : l2norm [(0:ℝ), 1] = 1 := by rw [l2norm, e2, Real.sqrt_one]
  have f1 : FusionEngine.FE_normalize [(1:ℝ), 0] = [1, 0] := by
    rw [FusionEngine.FE_normalize, if_neg (by rw [n1]; norm_num)]
    simp [n1]
  have f2 : FusionEngine.FE_normalize [(0:ℝ), 1] = [0, 1] := by
    rw [FusionEngine.FE_normalize, if_neg (by rw [n2]; norm_num)]
    simp [n2]
  have hv : vadd (vsmul 1 [(1:ℝ), 0]) (vsmul (1 - 1) [(0:ℝ), 1]) = [1, 0] := by
    norm_num [vadd, vsmul]
  have hf : FusionEngine.fuse (some [1, 0]) (some [0, 1]) 1 "weighted_avg"
      = some ([1, 0], [("image_contribution", 1), ("text_contribution", 0),
          ("image_text_alignment", 1 / 2), ("fusion_quality", 1)]) := by
    simp only [FusionEngine.fuse, f1, f2, if_pos rfl,
      FusionEngine.weighted_avg_fusion, hv, f1, Option.map_some']
    norm_num [FusionEngine.compute_match_scores, dot]
  refine ⟨hf, by rw [e1]; norm_num, ?_⟩
  exact claim_C6_fuse_norm.1 [1, 0] [0, 1] 1 "weighted_avg" [1, 0] _ hf
    (by rw [e1]; norm_num)

/-- Counterexample for C6 as stated: a single-modality call returns
the non-unit input `[2,0]` unchanged (norm 2, off by far more than
1e-5), and a dual-modality weighted average of two opposite unit
vectors returns the zero vector (norm 0). -/
theorem claim_C6_counterexample :
    FusionEngine.fuse (some [2, 0]) none (7 / 10) "weighted_avg"
      = some ([2, 0], [("image_contribution", 1), ("text_contribution", 0)])
    ∧ |l2norm [(2:ℝ), 0] - 1| > 1 / 100000
    ∧ (FusionEngine.fuse (some [1, 0]) (some [-1, 0]) (1 / 2) "weighted_avg").map
        (fun p => p.1) = some [0, 0]
    ∧ l2norm [(0:ℝ), 0] = 0 := by
  have n2 : l2norm [(2:ℝ), 0] = 2 := by
    rw [l2norm, show sumSq [(2:ℝ), 0] = 2 ^ 2 by norm_num [sumSq],
      Real.sqrt_sq (by norm_num)]
  have e1 : sumSq [(1:ℝ), 0] = 1 := by norm_num [sumSq]
  have n1 : l2norm [(1:ℝ), 0] = 1 := by rw [l2norm, e1, Real.sqrt_one]
  have e1' : sumSq [(-1:ℝ), 0] = 1 := by norm_num [sumSq]
  have n1' : l2norm [(-1:ℝ), 0] = 1 := by rw [l2norm, e1', Real.sqrt_one]
  have f1 : FusionEngine.FE_normalize [(1:ℝ), 0] = [1, 0] := by
    rw [FusionEngine.FE_normalize, if_neg (by rw [n1]; norm_num)]
    simp [n1]
  have f1' : FusionEngine.FE_normalize [(-1:ℝ), 0] = [-1, 0] := by
    rw [FusionEngine.FE_normalize, if_neg (by rw [n1']; norm_num)]
    simp [n1']
  have hz : l2norm [(0:ℝ), 0] = 0 := by
    rw [l2norm, show sumSq [(0:ℝ), 0] = 0 by norm_num [sumSq], Real.sqrt_zero]
  have hv : vadd (vsmul (1 / 2) [(1:ℝ), 0]) (vsmul (1 - 1 / 2) [(-1:ℝ), 0])
      = [0, 0] := by norm_num [vadd, vsmul]
  refine ⟨rfl, by rw [n2]; norm_num, ?_, hz⟩
  simp only [FusionEngine.fuse, f1, f1', if_pos rfl,
    FusionEngine.weighted_avg_fusion, hv, Option.map_some']
  rw [FusionEngine.FE_normalize, if_pos hz]
  simp

/-- C7 (amended): `rerank_with_diversity` multiplies the i-th score by
`1 - diversity_weight * n` where `n` counts earlier candidates of the
same category; each factor is at most 1 (but can be zero or negative,
so only *nonnegative* scores are never increased — the claim's
"(0,1]" range and unconditional non-increase fail, see
`claim_C7_counterexample`); with `diversity_weight = 0` the scores are
returned unchanged. -/
theorem claim_C7_rerank (scores : List ℝ) (feats : List FusionEngine.PFeature) (dw : ℝ)
    (h0 : 0 ≤ dw) (hnn : ∀ s ∈ scores, 0 ≤ s) :
    (∀ (i : ℕ) (s : ℝ) (c : String),
        scores.get? i = some s →
        (feats.map (fun p => p.category.getD "unknown")).get? i = some c →
        (FusionEngine.rerank_with_diversity scores feats dw).get? i
          = some (s * (1 - dw *
              (((feats.map (fun p => p.category.getD "unknown")).take i).count c : ℝ))))
    ∧ List.Forall₂ (fun r s => r ≤ s)
        (FusionEngine.rerank_with_diversity scores feats dw) scores
    ∧ (dw = 0 → FusionEngine.rerank_with_diversity scores feats dw = scores) := by
  refine ⟨?_, ?_, fun h => by simp [FusionEngine.rerank_with_diversity, h]⟩
  · intro i s c hs hc
    by_cases h : dw = 0
    · subst h
      unfold FusionEngine.rerank_with_diversity
      rw [if_pos rfl, hs]
      norm_num
    · simp only [FusionEngine.rerank_with_diversity, if_neg h]
      have hg := FusionEngine.rerankLoop_get? dw scores
        (feats.map (fun p => p.category.getD "unknown")) [] i s c hs hc
      rw [hg]
      simp
  · by_cases h : dw = 0
    · subst h
      unfold FusionEngine.rerank_with_diversity
      rw [if_pos rfl]
      exact FusionEngine.forall2_le_refl scores
    · simp only [FusionEngine.rerank_with_diversity, if_neg h]
      exact FusionEngine.rerankLoop_le dw h0 scores _ [] hnn

/-- Witness for C7 at concrete nonnegative scores. -/
theorem claim_C7_witness :
    (0:ℝ) ≤ 1 / 2
    ∧ List.Forall₂ (fun r s => r ≤ s)
        (FusionEngine.rerank_with_diversity [1 / 2, 1 / 2]
          [⟨some "a"⟩, ⟨some "a"⟩] (1 / 2)) [1 / 2, 1 / 2] := by
  refine ⟨by norm_num,
    (claim_C7_rerank [1 / 2, 1 / 2] [⟨some "a"⟩, ⟨some "a"⟩] (1 / 2)
      (by norm_num) ?_).2.1⟩
  intro s hs
  simp only [List.mem_cons, List.not_mem_nil, or_false] at hs
  rcases hs with h | h <;> subst h <;> norm_num

/-- Counterexample for C7 as stated: with `diversity_weight = 1` and
two candidates of the same category, the second penalty factor is
`1 - 1·1 = 0 ∉ (0,1]`, and the negative score `-1` is *increased*
to `0`. -/
theorem claim_C7_counterexample :
    FusionEngine.rerank_with_diversity [-1, -1] [⟨some "c"⟩, ⟨some "c"⟩] 1
      = [-1, 0]
    ∧ ((-1:ℝ) < 0) := by
  constructor
  · simp only [FusionEngine.rerank_with_diversity, if_neg one_ne_zero]
    norm_num [FusionEngine.rerankLoop]
  · norm_num

/-! ## RedisCacheManager (`app/utils/redis_cache.py`)

Every primitive call into the redis client (and (de)serialization) can
raise; an operation's possible outcomes are modelled by `ROutcome`.
The manager methods catch every exception and return a failure value,
so in the embedding they are total functions. -/

namespace RedisCache

/-- Outcome of one primitive backend call: a value, or a raised
exception (caught by the manager's `except` blocks). -/
inductive ROutcome (α : Type) where
  | ok (a : α)
  | exn

/-- Behavior of the backing redis connection: whether `ping` succeeds
(`False` also covers a `ping` that raises), and the outcome of each
primitive call the manager makes.  `α` is the type of cached values
(pickling is modelled as the identity). -/
structure Backend (α : Type) where
  pingOk : Bool
  setexR : ROutcome Unit
  getR : ROutcome (Option α)
  keysR : ROutcome (List String)
  deleteR : ROutcome ℕ

/-- Embedding of `RedisCacheManager`: `client = none` models a failed initial
connection (`self.client = None`). -/
structure Manager (α : Type) where
  client : Option (Backend α)
  default_ttl : ℕ

/-- Embedding of `RedisCacheManager.is_available`. -/
def is_available {α : Type} (m : Manager α) : Bool :=
  match m.client with
  | none => false
  | some b => b.pingOk

/-- Embedding of `RedisCacheManager.set`: `False` on unavailability or on any
raised exception, `True` on success. -/
def rset {α : Type} (m : Manager α) (key : String) (value : α) (ttl : Option ℕ) : Bool :=
  if is_available m = false then false
  else
    match m.client with
    | none => false
    | some b =>
      match b.setexR with
      | .ok _ => true
      | .exn => false

/-- Embedding of `RedisCacheManager.get`: `None` on unavailability, missing key, or
any raised exception. -/
def rget {α : Type} (m : Manager α) (key : String) : Option α :=
  if is_available m = false then none
  else
    match m.client with
    | none => none
    | some b =>
      match b.getR with
      | .ok d => d
      | .exn => none

/-- Embedding of `RedisCacheManager.invalidate_pattern`: `0` on unavailability or
any raised exception, else the number of keys deleted. -/
def invalidate_pattern {α : Type} (m : Manager α) (pat : String) : ℕ :=
  if is_available m = false then 0
  else
    match m.client with
    | none => 0
    | some b =>
      match b.keysR with
      | .ok keys =>
        if keys ≠ [] then
          match b.deleteR with
          | .ok n => n
          | .exn => 0
        else 0
      | .exn => 0

end RedisCache

/-- C3: when the backing store is unreachable (`client is None` or a
failing ping), `set` returns `False`, `get` returns `None`, and
`invalidate_pattern` returns `0`; and when any primitive backend call
raises, the same failure values are returned instead of propagating
the exception (the manager methods are total functions of the backend
outcome by construction). -/
theorem claim_C3_cache_failure (α : Type) (m : RedisCache.Manager α) (key : String)
    (value : α) (ttl : Option ℕ) (pat : String) :
    (RedisCache.is_available m = false →
      RedisCache.rset m key value ttl = false
        ∧ RedisCache.rget m key = none
        ∧ RedisCache.invalidate_pattern m pat = 0)
    ∧ (∀ b : RedisCache.Backend α, m.client = some b →
        (b.setexR = .exn → RedisCache.rset m key value ttl = false)
        ∧ (b.getR = .exn → RedisCache.rget m key = none)
        ∧ (b.keysR = .exn → RedisCache.invalidate_pattern m pat = 0)
        ∧ (b.deleteR = .exn → RedisCache.invalidate_pattern m pat = 0)) := by
  constructor
  · intro h
    refine ⟨?_, ?_, ?_⟩ <;>
      simp [RedisCache.rset, RedisCache.rget, RedisCache.invalidate_pattern, h]
  · intro b hb
    refine ⟨?_, ?_, ?_, ?_⟩ <;> intro hx <;>
      by_cases hav : RedisCache.is_available m = false <;>
        simp [RedisCache.rset, RedisCache.rget, RedisCache.invalidate_pattern,
          hav, hb, hx] <;>
      cases hkeys : b.keysR <;> simp [hkeys] <;> split <;> simp

/-- Witness for C3 with a disconnected manager and with a connected
manager whose calls raise. -/
theorem claim_C3_witness :
    RedisCache.is_available (⟨none, 86400⟩ : RedisCache.Manager ℕ) = false
    ∧ RedisCache.rset (⟨none, 86400⟩ : RedisCache.Manager ℕ) "k" 5 none = false
    ∧ RedisCache.rget (⟨none, 86400⟩ : RedisCache.Manager ℕ) "k" = none
    ∧ RedisCache.invalidate_pattern (⟨none, 86400⟩ : RedisCache.Manager ℕ) "p" = 0 := by
  have h := (claim_C3_cache_failure ℕ ⟨none, 86400⟩ "k" 5 none "p").1 rfl
  exact ⟨rfl, h.1, h.2.1, h.2.2⟩

/-! ## FAISSIndex (`app/utils/faiss_index.py`)

The FAISS index itself is third-party code; it is modelled as an
*exact* inner-product search over the stored vectors (the reading the
wrapper itself assumes: "FAISS returns distances, for IP this is
similarity"), returning index/score pairs in descending score order.
Product metadata dicts are structures whose `Option` fields model key
presence. -/

theorem dot_map_zero_left (u v : Vec) : dot (u.map (fun _ => (0:ℝ))) v = 0 := by
  induction u generalizing v with
  | nil => simp [dot]
  | cons a tu ih =>
    cases v with
    | nil => simp [dot]
    | cons b tv => simpa [dot] using ih tv

theorem dot_map_zero_right (u v : Vec) : dot u (v.map (fun _ => (0:ℝ))) = 0 := by
  induction u generalizing v with
  | nil => simp [dot]
  | cons a tu ih =>
    cases v with
    | nil => simp [dot]
    | cons b tv => simpa [dot] using ih tv

theorem normalize_of_norm_zero (w : Vec) (h : l2norm w = 0) :
    normalize w = w.map (fun _ => 0) := by
  simp [normalize, h]

/-- For the vectors the code actually compares (both sides already
normalized), the raw dot product *is* the cosine similarity. -/
theorem dot_normalize_eq_cosineSim (w u : Vec) :
    dot (normalize w) (normalize u) = cosineSim (normalize w) (normalize u) := by
  unfold cosineSim
  by_cases hw : sumSq w = 0
  · have hzw : l2norm w = 0 := by simp [l2norm, hw]
    rw [normalize_of_norm_zero w hzw, dot_map_zero_left, zero_div]
  · by_cases hu : sumSq u = 0
    · have hzu : l2norm u = 0 := by simp [l2norm, hu]
      rw [normalize_of_norm_zero u hzu, dot_map_zero_right, zero_div]
    · have h1 : l2norm (normalize w) = 1 := by
        rw [l2norm, sumSq_normalize, if_neg hw, Real.sqrt_one]
      have h2 : l2norm (normalize u) = 1 := by
        rw [l2norm, sumSq_normalize, if_neg hu, Real.sqrt_one]
      rw [h1, h2]
      norm_num

theorem sumSq_map_zero (v : Vec) : sumSq (v.map (fun _ => (0:ℝ))) = 0 := by
  induction v with
  | nil => simp [sumSq]
  | cons a t ih => simpa [sumSq_cons] using ih

theorem normalize_idem (v : Vec) : normalize (normalize v) = normalize v := by
  by_cases h : sumSq v = 0
  · have hz : l2norm v = 0 := by simp [l2norm, h]
    rw [normalize_of_norm_zero v hz]
    have hz2 : l2norm (v.map (fun _ => (0:ℝ))) = 0 := by
      rw [l2norm, sumSq_map_zero, Real.sqrt_zero]
    rw [normalize_of_norm_zero _ hz2, List.map_map]
    rfl
  · exact normalize_of_sumSq_one (by rw [sumSq_normalize, if_neg h])

/-- If `f` accepts every element, `filterMap` is a `map`. -/
theorem filterMap_eq_map_of_some {α β : Type} (f : α → Option β) (g : α → β) :
    ∀ l : List α, (∀ a ∈ l, f a = some (g a)) → l.filterMap f = l.map g
  | [], _ => rfl
  | a :: t, h => by
    have ha := h a (by simp)
    simp only [List.filterMap_cons, ha, List.map_cons]
    rw [filterMap_eq_map_of_some f g t (fun b hb => h b (by simp [hb]))]

/-- Replacing a list entry by itself is the identity. -/
theorem list_set_self {α : Type} (l : List α) (i : ℕ) (h : i < l.length) :
    l.set i l[i] = l := by
  apply List.ext_getElem
  · simp
  · intro n h1 h2
    by_cases hn : n = i
    · subst hn
      simp
    · simp [List.getElem_set, Ne.symm hn]

namespace Faiss

/-- A product metadata dict as stored in `product_metadata`. -/
structure Meta where
  product_id : String
  title : Option String
  price : Option ℝ
  category : Option String
  image_url : Option String
  brand : Option String
  rating : Option ℝ
  text_embedding : Option Vec
  image_embedding : Option Vec

/-- Helper for `hybrid_search`, which strips the (large) stored embeddings from each
result dict. -/
def stripEmb (md : Meta) : Meta :=
  { md with text_embedding := none, image_embedding := none }

/-- The FAISS index plus its parallel metadata table. -/
structure State where
  vectors : List Vec
  product_metadata : List Meta

def emptyState : State := ⟨[], []⟩

/-- Descending-by-score order on (payload, score) pairs. -/
def scoreDesc {α : Type} (a b : α × ℝ) : Prop := b.2 ≤ a.2

instance instScoreDescTotal {α : Type} : IsTotal (α × ℝ) scoreDesc :=
  ⟨fun a b => le_total b.2 a.2⟩

instance instScoreDescTrans {α : Type} : IsTrans (α × ℝ) scoreDesc :=
  ⟨fun _ _ _ h1 h2 => le_trans h2 h1⟩

/-- Model of `self.index.search(q, k)`: exact inner-product search, returning
the `k` best (index, score) pairs in descending score order. -/
noncomputable def indexSearchScored (vectors : List Vec) (q : Vec) (k : ℕ) : List (ℕ × ℝ) :=
  (List.insertionSort scoreDesc
    ((List.range vectors.length).map (fun i => (i, dot q (vectors.getD i []))))).take k

/-- The Python `for ... : append; if len(results) >= top_k: break`
pattern shared by `search` (and the service layer): collect the
`f`-accepted entries, stopping as soon as `top_k` results are
gathered (the bound is checked *after* each append). -/
def breakLoop {α β : Type} (f : α → Option β) (top_k : ℕ) :
    List α → List β → List β
  | [], acc => acc
  | a :: rest, acc =>
    match f a with
    | none => breakLoop f top_k rest acc
    | some b =>
      if top_k ≤ (acc ++ [b]).length then acc ++ [b]
      else breakLoop f top_k rest (acc ++ [b])

/-- The category filter
`filter_categories and metadata.get('category') not in filter_categories`:
no filtering when the list is absent or empty (Python truthiness); a
product with no category is excluded by any non-empty filter. -/
def categoryExcluded (filter_categories : Option (List String)) (md : Meta) : Prop :=
  match filter_categories with
  | none => False
  | some cats => cats ≠ [] ∧ md.category ∉ cats.map (fun c => some c)

/-- The body of `search`'s result loop for one (index, score) hit. -/
noncomputable def searchValidate (meta : List Meta) (filter_categories : Option (List String))
    (min_score : ℝ) : ℕ × ℝ → Option (Meta × ℝ) := fun p =>
  match meta.get? p.1 with
  | none => none
  | some md =>
    if p.2 < min_score then none
    else if categoryExcluded filter_categories md then none
    else some (md, p.2)

/-- Embedding of `FAISSIndex.search`. -/
noncomputable def search (st : State) (query_embedding : Vec) (top_k : ℕ)
    (filter_categories : Option (List String)) (min_score : ℝ) : List (Meta × ℝ) :=
  if st.product_metadata.length = 0 then []
  else
    let qn := normalize query_embedding
    let search_k := min (top_k * 3) st.product_metadata.length
    let hits := indexSearchScored st.vectors qn search_k
    breakLoop (searchValidate st.product_metadata filter_categories min_score) top_k hits []

/-- The query-vector construction of `hybrid_search` (inputs already
normalized by the caller). -/
noncomputable def hybridQuery (text_n image_n : Option Vec) (alpha : ℝ) : Vec :=
  match text_n, image_n with
  | some t, some i => normalize (vadd (vsmul alpha i) (vsmul (1 - alpha) t))
  | none, some i => i
  | some t, none => t
  | none, none => []

/-- The per-candidate re-scoring step of `hybrid_search`: skip unless
*both* raw embeddings are stored, rebuild the candidate's comparison
vector with the query's alpha, score by dot product, apply the
`min_score` and category filters, and strip the embeddings from the
returned dict. -/
noncomputable def hybridRescore (text_n image_n : Option Vec) (alpha : ℝ) (query : Vec)
    (filter_categories : Option (List String)) (min_score : ℝ) (meta : List Meta) :
    ℕ → Option (Meta × ℝ) := fun idx =>
  match meta.get? idx with
  | none => none
  | some md =>
    match md.text_embedding, md.image_embedding with
    | some te, some ie =>
      let ptxt := normalize te
      let pimg := normalize ie
      let pe0 :=
        match text_n, image_n with
        | some _, some _ => vadd (vsmul alpha pimg) (vsmul (1 - alpha) ptxt)
        | none, some _ => pimg
        | some _, none => ptxt
        | none, none => ptxt
      let pe := normalize pe0
      let score := dot query pe
      if score < min_score then none
      else if categoryExcluded filter_categories md then none
      else some (stripEmb md, score)
    | _, _ => none

/-- Embedding of `FAISSIndex.hybrid_search`; `none` models the `ValueError` raised
when neither embedding is provided. -/
noncomputable def hybrid_search (st : State) (text_embedding image_embedding : Option Vec)
    (alpha : ℝ) (top_k : ℕ) (filter_categories : Option (List String)) (min_score : ℝ) :
    Option (List (Meta × ℝ)) :=
  if st.product_metadata.length = 0 then some []
  else if text_embedding.isNone ∧ image_embedding.isNone then none
  else
    let tn := text_embedding.map normalize
    let imn := image_embedding.map normalize
    let query := hybridQuery tn imn alpha
    let search_k := min st.product_metadata.length (max (top_k * 5) 50)
    let idxs := (indexSearchScored st.vectors query search_k).map (fun p => p.1)
    let rescored :=
      idxs.filterMap (hybridRescore tn imn alpha query filter_categories min_score
        st.product_metadata)
    some ((List.insertionSort scoreDesc rescored).take top_k)

/-- The mutating operations of the `FAISSIndex` wrapper. -/
inductive Op where
  | add (embedding : Vec) (metadata : Meta)
  | addBatch (embeddings : List Vec) (metadata_list : List Meta)
  | remove (product_id : String)
  | update (product_id : String) (metadata : Meta)
  | rebuild (embeddings : List Vec) (metadata_list : List Meta)
  | clear

/-- One step of the wrapper's mutations, from the source:
`add_product` / `add_batch_products` normalize then append to both
sides; `remove_product` pops the *metadata only*; `update_product`
replaces metadata in place; `rebuild_index` reinitializes and
re-adds; `clear_index` empties both. -/
noncomputable def applyOp (st : State) : Op → State
  | .add e md => ⟨st.vectors ++ [normalize e], st.product_metadata ++ [md]⟩
  | .addBatch es ms => ⟨st.vectors ++ es.map normalize, st.product_metadata ++ ms⟩
  | .remove pid =>
    match st.product_metadata.findIdx? (fun md => md.product_id == pid) with
    | some i => ⟨st.vectors, st.product_metadata.eraseIdx i⟩
    | none => st
  | .update pid md =>
    match st.product_metadata.findIdx? (fun md0 => md0.product_id == pid) with
    | some i => ⟨st.vectors, st.product_metadata.set i md⟩
    | none => st
  | .rebuild es ms => ⟨es.map normalize, ms⟩
  | .clear => ⟨[], []⟩

noncomputable def applyOps (st : State) (ops : List Op) : State := ops.foldl applyOp st

/-- The lockstep invariant: metadata table length = index vector count. -/
def lockstep (st : State) : Prop := st.vectors.length = st.product_metadata.length

/-- Operations that keep the two sides in lockstep: everything except
`remove_product` (metadata-only removal), with parallel-array
arguments of equal length for the batch operations. -/
def opSafe : Op → Prop
  | .addBatch es ms => es.length = ms.length
  | .rebuild es ms => es.length = ms.length
  | .remove _ => False
  | _ => True

/-- Ghost pairing: the (vector, metadata) pairs a safe operation
sequence builds, showing table position i corresponds to index
vector i. -/
noncomputable def opPairs (ps : List (Vec × Meta)) : Op → List (Vec × Meta)
  | .add e md => ps ++ [(normalize e, md)]
  | .addBatch es ms => ps ++ (es.map normalize).zip ms
  | .remove _ => ps
  | .update pid md =>
    match (ps.map (fun p => p.2)).findIdx? (fun md0 => md0.product_id == pid) with
    | some i => ps.set i ((ps.getD i ([], md)).1, md)
    | none => ps
  | .rebuild es ms => (es.map normalize).zip ms
  | .clear => []

noncomputable def opsPairs (ops : List Op) : List (Vec × Meta) := ops.foldl opPairs []

theorem indexSearchScored_mem (vectors : List Vec) (q : Vec) (k : ℕ) :
    ∀ p ∈ indexSearchScored vectors q k,
      p.1 < vectors.length ∧ p.2 = dot q (vectors.getD p.1 []) := by
  intro p hp
  have h1 : p ∈ List.insertionSort scoreDesc ((List.range vectors.length).map
      (fun i => (i, dot q (vectors.getD i [])))) := List.mem_of_mem_take hp
  have h2 := (List.mem_insertionSort scoreDesc).mp h1
  obtain ⟨i, hi, hpi⟩ := List.mem_map.mp h2
  rw [← hpi]
  exact ⟨List.mem_range.mp hi, rfl⟩

theorem indexSearchScored_sorted (vectors : List Vec) (q : Vec) (k : ℕ) :
    (indexSearchScored vectors q k).Pairwise scoreDesc :=
  (List.sorted_insertionSort scoreDesc _).sublist (List.take_sublist _ _)

theorem indexSearchScored_take (vectors : List Vec) (q : Vec) (k j : ℕ) :
    (indexSearchScored vectors q k).take j = indexSearchScored vectors q (min j k) := by
  unfold indexSearchScored
  rw [List.take_take]

theorem breakLoop_eq {α β : Type} (f : α → Option β) (k : ℕ) :
    ∀ (l : List α) (acc : List β), acc.length < max k 1 →
      breakLoop f k l acc = acc ++ (l.filterMap f).take (max k 1 - acc.length)
  | [], acc => by
    intro _
    simp [breakLoop]
  | a :: rest, acc => by
    intro hlen
    simp only [breakLoop, List.filterMap_cons]
    cases hfa : f a with
    | none =>
      dsimp only
      exact breakLoop_eq f k rest acc hlen
    | some b =>
      dsimp only
      by_cases hstop : k ≤ (acc ++ [b]).length
      · rw [if_pos hstop]
        have h1 : max k 1 - acc.length = 1 := by
          simp only [List.length_append, List.length_cons, List.length_nil] at hstop
          omega
        rw [h1]
        simp
      · rw [if_neg hstop]
        have h2 : (acc ++ [b]).length < max k 1 := by
          simp only [List.length_append, List.length_cons, List.length_nil] at hstop ⊢
          omega
        rw [breakLoop_eq f k rest (acc ++ [b]) h2]
        have h3 : max k 1 - acc.length = (max k 1 - (acc ++ [b]).length) + 1 := by
          simp only [List.length_append, List.length_cons, List.length_nil] at hstop ⊢
          omega
        rw [h3]
        simp [List.take_succ_cons]

theorem breakLoop_nil_eq {α β : Type} (f : α → Option β) (k : ℕ) (l : List α) :
    breakLoop f k l [] = (l.filterMap f).take (max k 1) := by
  rw [breakLoop_eq f k l [] (by simp only [List.length_nil]; omega)]
  simp

theorem pairwise_filterMap_score {α γ : Type} (f : α × ℝ → Option (γ × ℝ))
    (hf : ∀ p r, f p = some r → r.2 = p.2) :
    ∀ {l : List (α × ℝ)}, l.Pairwise scoreDesc → (l.filterMap f).Pairwise scoreDesc := by
  intro l hl
  induction hl with
  | nil => simp
  | @cons a t ha ht ih =>
    simp only [List.filterMap_cons]
    cases hfa : f a with
    | none => exact ih
    | some r =>
      refine List.Pairwise.cons ?_ ih
      intro r' hr'
      obtain ⟨b, hb, hfb⟩ := List.mem_filterMap.mp hr'
      have h1 := hf a r hfa
      have h2 := hf b r' hfb
      have h3 := ha b hb
      unfold scoreDesc at h3 ⊢
      rw [h1, h2]
      exact h3

theorem applyOp_pairs (ps : List (Vec × Meta)) (op : Op) (hsafe : opSafe op) :
    applyOp ⟨ps.map (fun p => p.1), ps.map (fun p => p.2)⟩ op
      = ⟨(opPairs ps op).map (fun p => p.1), (opPairs ps op).map (fun p => p.2)⟩ := by
  cases op with
  | add e md => simp [applyOp, opPairs]
  | addBatch es ms =>
    simp only [opSafe] at hsafe
    have hfst : ((es.map normalize).zip ms).map (fun p => p.1) = es.map normalize :=
      List.map_fst_zip _ _ (by simp [hsafe])
    have hsnd : ((es.map normalize).zip ms).map (fun p => p.2) = ms :=
      List.map_snd_zip _ _ (by simp [hsafe])
    simp [applyOp, opPairs, hfst, hsnd]
  | remove pid => exact absurd hsafe (by simp [opSafe])
  | update pid md =>
    cases h : (ps.map (fun p => p.2)).findIdx? (fun md0 => md0.product_id == pid) with
    | none => simp only [applyOp, opPairs, h]
    | some i =>
      have hi : i < ps.length := by
        have := (List.findIdx?_eq_some_iff_getElem.mp h).1
        simpa using this
      have hmap : i < (ps.map (fun p => p.1)).length := by simpa using hi
      have hfst : (ps.set i ((ps.getD i ([], md)).1, md)).map (fun p => p.1)
          = ps.map (fun p => p.1) := by
        rw [List.map_set, List.getD_eq_getElem _ _ hi]
        have hv : ps[i].1 = (ps.map (fun p => p.1))[i] := by simp
        rw [hv, list_set_self _ _ hmap]
      have hsnd : (ps.set i ((ps.getD i ([], md)).1, md)).map (fun p => p.2)
          = (ps.map (fun p => p.2)).set i md := by
        rw [List.map_set]
      simp only [applyOp, opPairs, h, hfst, hsnd]
  | rebuild es ms =>
    simp only [opSafe] at hsafe
    have hfst : ((es.map normalize).zip ms).map (fun p => p.1) = es.map normalize :=
      List.map_fst_zip _ _ (by simp [hsafe])
    have hsnd : ((es.map normalize).zip ms).map (fun p => p.2) = ms :=
      List.map_snd_zip _ _ (by simp [hsafe])
    simp [applyOp, opPairs, hfst, hsnd]
  | clear => simp [applyOp, opPairs]

theorem applyOps_pairs (ops : List Op) :
    ∀ ps : List (Vec × Meta), (∀ op ∈ ops, opSafe op) →
      applyOps ⟨ps.map (fun p => p.1), ps.map (fun p => p.2)⟩ ops
        = ⟨(ops.foldl opPairs ps).map (fun p => p.1),
           (ops.foldl opPairs ps).map (fun p => p.2)⟩ := by
  induction ops with
  | nil => intro ps _; rfl
  | cons op rest ih =>
    intro ps hsafe
    have h1 := applyOp_pairs ps op (hsafe op (by simp))
    simp only [applyOps, List.foldl_cons] at *
    rw [h1]
    exact ih (opPairs ps op) (fun o ho => hsafe o (by simp [ho]))

end Faiss

/-- A concrete metadata record (product id "A", no other keys) used at
concrete inputs. -/
def mA4 : Faiss.Meta := ⟨"A", none, none, none, none, none, none, none, none⟩

/-- C4 (amended): starting from the empty store, the lockstep
invariant (metadata length = vector count, with table position i
paired with index vector i, witnessed by the ghost pair list) holds
after every sequence of operations that contains no `remove_product`
and whose batch operations pass parallel arrays of equal length.  As
originally stated — over sequences that may include `remove_product` —
the claim is false: `remove_product` pops the metadata entry only and
leaves the stale vector (see `claim_C4_counterexample`). -/
theorem claim_C4_lockstep (ops : List Faiss.Op) (hsafe : ∀ op ∈ ops, Faiss.opSafe op) :
    Faiss.lockstep (Faiss.applyOps Faiss.emptyState ops)
    ∧ Faiss.applyOps Faiss.emptyState ops
      = ⟨(Faiss.opsPairs ops).map (fun p => p.1), (Faiss.opsPairs ops).map (fun p => p.2)⟩ := by
  have h := Faiss.applyOps_pairs ops [] hsafe
  have he : Faiss.emptyState
      = Faiss.State.mk (([] : List (Vec × Faiss.Meta)).map (fun p => p.1))
        (([] : List (Vec × Faiss.Meta)).map (fun p => p.2)) := rfl
  rw [he]
  refine ⟨?_, h⟩
  rw [h]
  simp [Faiss.lockstep, Faiss.opsPairs]

/-- Witness for C4 on a concrete safe operation sequence. -/
theorem claim_C4_witness :
    (∀ op ∈ [Faiss.Op.add [1, 0] mA4, Faiss.Op.clear,
        Faiss.Op.addBatch [[1, 0], [0, 1]] [mA4, mA4]], Faiss.opSafe op)
    ∧ Faiss.lockstep (Faiss.applyOps Faiss.emptyState
        [Faiss.Op.add [1, 0] mA4, Faiss.Op.clear,
         Faiss.Op.addBatch [[1, 0], [0, 1]] [mA4, mA4]]) := by
  have hsafe : ∀ op ∈ [Faiss.Op.add [1, 0] mA4, Faiss.Op.clear,
      Faiss.Op.addBatch [[1, 0], [0, 1]] [mA4, mA4]], Faiss.opSafe op := by
    intro op hop
    simp only [List.mem_cons, List.not_mem_nil, or_false] at hop
    rcases hop with h | h | h <;> subst h <;> simp [Faiss.opSafe]
  exact ⟨hsafe, (claim_C4_lockstep _ hsafe).1⟩

/-- Counterexample for C4 as stated: after `add_product` then
`remove_product`, the index still holds one vector while the metadata
table is empty. -/
theorem claim_C4_counterexample :
    (Faiss.applyOps Faiss.emptyState
        [Faiss.Op.add [1, 0] mA4, Faiss.Op.remove "A"]).vectors.length = 1
    ∧ (Faiss.applyOps Faiss.emptyState
        [Faiss.Op.add [1, 0] mA4, Faiss.Op.remove "A"]).product_metadata.length = 0
    ∧ ¬ Faiss.lockstep (Faiss.applyOps Faiss.emptyState
        [Faiss.Op.add [1, 0] mA4, Faiss.Op.remove "A"]) := by
  have h : Faiss.applyOps Faiss.emptyState
      [Faiss.Op.add [1, 0] mA4, Faiss.Op.remove "A"]
      = ⟨[normalize [1, 0]], []⟩ := by
    simp [Faiss.applyOps, Faiss.applyOp, Faiss.emptyState, mA4, List.findIdx?]
  rw [h]
  exact ⟨rfl, rfl, by simp [Faiss.lockstep]⟩

/-- C1: for a `hybrid_search` call with both embeddings (unit vectors,
per the data-model invariant), the query vector is
`normalize(alpha*image + (1-alpha)*text)`; every returned candidate has
both raw embeddings stored (candidates lacking either are excluded)
and carries exactly the cosine similarity between the query vector and
`normalize(alpha*normalized_image + (1-alpha)*normalized_text)` with
the same alpha; the result is sorted descending by that score and has
length at most `top_k`. -/
theorem claim_C1_hybrid (st : Faiss.State) (t i : Vec) (alpha : ℝ) (top_k : ℕ)
    (fc : Option (List String)) (ms : ℝ) (res : List (Faiss.Meta × ℝ))
    (ht : sumSq t = 1) (hi : sumSq i = 1)
    (hres : Faiss.hybrid_search st (some t) (some i) alpha top_k fc ms = some res) :
    Faiss.hybridQuery (some (normalize t)) (some (normalize i)) alpha
        = normalize (vadd (vsmul alpha i) (vsmul (1 - alpha) t))
    ∧ (∀ r ∈ res, ∃ md te ie,
          md ∈ st.product_metadata
          ∧ md.text_embedding = some te ∧ md.image_embedding = some ie
          ∧ r.1 = Faiss.stripEmb md
          ∧ r.2 = cosineSim
              (normalize (vadd (vsmul alpha i) (vsmul (1 - alpha) t)))
              (normalize (vadd (vsmul alpha (normalize ie))
                (vsmul (1 - alpha) (normalize te)))))
    ∧ res.Pairwise Faiss.scoreDesc
    ∧ res.length ≤ top_k := by
  have hq : Faiss.hybridQuery (some (normalize t)) (some (normalize i)) alpha
      = normalize (vadd (vsmul alpha i) (vsmul (1 - alpha) t)) := by
    simp only [Faiss.hybridQuery]
    rw [normalize_of_sumSq_one hi, normalize_of_sumSq_one ht]
  unfold Faiss.hybrid_search at hres
  by_cases hemp : st.product_metadata.length = 0
  · rw [if_pos hemp] at hres
    simp only [Option.some.injEq] at hres
    subst hres
    exact ⟨hq, by simp, by simp, by simp⟩
  rw [if_neg hemp, if_neg (by simp)] at hres
  simp only [Option.map_some', Option.some.injEq] at hres
  refine ⟨hq, ?_,
    by rw [← hres]
       exact (List.sorted_insertionSort Faiss.scoreDesc _).sublist (List.take_sublist _ _),
    by rw [← hres]
       simp only [List.length_take]
       omega⟩
  intro r hr
  rw [← hres] at hr
  have hr1 := List.mem_of_mem_take hr
  have hr2 := (List.mem_insertionSort Faiss.scoreDesc).mp hr1
  obtain ⟨idx, hidx, heq⟩ := List.mem_filterMap.mp hr2
  simp only [Faiss.hybridRescore] at heq
  cases hmd : st.product_metadata.get? idx with
  | none =>
    rw [hmd] at heq
    exact absurd heq (by simp)
  | some md =>
    rw [hmd] at heq
    dsimp only at heq
    cases hte : md.text_embedding with
    | none =>
      rw [hte] at heq
      exact absurd heq (by simp)
    | some te =>
      cases hie : md.image_embedding with
      | none =>
        rw [hte, hie] at heq
        exact absurd heq (by simp)
      | some ie =>
        rw [hte, hie] at heq
        dsimp only at heq
        split_ifs at heq with h1 h2
        all_goals simp only [Option.some.injEq, reduceCtorEq] at heq
        refine ⟨md, te, ie, List.get?_mem hmd, hte, hie, ?_, ?_⟩
        · rw [← heq]
        · rw [← heq]
          dsimp only
          rw [← hq]
          simp only [Faiss.hybridQuery]
          exact dot_normalize_eq_cosineSim _ _

/-- Witness for C1 at a concrete two-sided query against the empty
index (for which `hybrid_search` returns the empty result). -/
theorem claim_C1_witness :
    sumSq [(0:ℝ), 1] = 1 ∧ sumSq [(1:ℝ), 0] = 1
    ∧ Faiss.hybrid_search Faiss.emptyState (some [0, 1]) (some [1, 0])
        (7 / 10) 5 none (-1) = some []
    ∧ Faiss.hybridQuery (some (normalize [0, 1])) (some (normalize [1, 0])) (7 / 10)
        = normalize (vadd (vsmul (7 / 10) [1, 0]) (vsmul (1 - 7 / 10) [0, 1])) := by
  have ht : sumSq [(0:ℝ), 1] = 1 := by norm_num [sumSq]
  have hi : sumSq [(1:ℝ), 0] = 1 := by norm_num [sumSq]
  have hres : Faiss.hybrid_search Faiss.emptyState (some [0, 1]) (some [1, 0])
      (7 / 10) 5 none (-1) = some [] := by
    unfold Faiss.hybrid_search
    rw [if_pos (show Faiss.emptyState.product_metadata.length = 0 from rfl)]
  exact ⟨ht, hi, hres,
    (claim_C1_hybrid Faiss.emptyState [0, 1] [1, 0] (7 / 10) 5 none (-1) [] ht hi hres).1⟩

theorem searchValidate_some (meta : List Faiss.Meta) (fc : Option (List String))
    (ms : ℝ) (p : ℕ × ℝ) (r : Faiss.Meta × ℝ)
    (h : Faiss.searchValidate meta fc ms p = some r) :
    r.2 = p.2 ∧ meta.get? p.1 = some r.1 := by
  unfold Faiss.searchValidate at h
  cases hmd : meta.get? p.1 with
  | none =>
    rw [hmd] at h
    exact absurd h (by simp)
  | some md =>
    rw [hmd] at h
    dsimp only at h
    split_ifs at h
    all_goals simp only [Option.some.injEq, reduceCtorEq] at h
    rw [← h]
    exact ⟨rfl, rfl⟩

theorem hybridRescore_score_form (tn imn : Option Vec) (alpha : ℝ) (query : Vec)
    (fc : Option (List String)) (ms : ℝ) (meta : List Faiss.Meta) (idx : ℕ)
    (r : Faiss.Meta × ℝ)
    (h : Faiss.hybridRescore tn imn alpha query fc ms meta idx = some r) :
    ∃ u, r.2 = dot query (normalize u) := by
  unfold Faiss.hybridRescore at h
  cases hmd : meta.get? idx with
  | none =>
    rw [hmd] at h
    exact absurd h (by simp)
  | some md =>
    rw [hmd] at h
    dsimp only at h
    cases hte : md.text_embedding with
    | none =>
      rw [hte] at h
      exact absurd h (by simp)
    | some te =>
      cases hie : md.image_embedding with
      | none =>
        rw [hte, hie] at h
        exact absurd h (by simp)
      | some ie =>
        rw [hte, hie] at h
        dsimp only at h
        split_ifs at h
        all_goals simp only [Option.some.injEq, reduceCtorEq] at h
        exact ⟨_, by rw [← h]⟩

theorem hybridQuery_sumSq_le_one (te ie : Option Vec) (alpha : ℝ)
    (h : ¬(te.isNone ∧ ie.isNone)) :
    sumSq (Faiss.hybridQuery (te.map normalize) (ie.map normalize) alpha) ≤ 1 := by
  cases te with
  | none =>
    cases ie with
    | none => simp at h
    | some i => simpa [Faiss.hybridQuery] using sumSq_normalize_le_one i
  | some t =>
    cases ie with
    | none => simpa [Faiss.hybridQuery] using sumSq_normalize_le_one t
    | some i => simpa [Faiss.hybridQuery] using sumSq_normalize_le_one _

/-- C2 (amended): all similarity scores returned by `search` over an
index of unit vectors — and by `hybrid_search` over any index — lie in
`[-1, 1]` (they are raw cosines; the claimed interval [0,1] is wrong,
see `claim_C2_counterexample`), and `search` returns its results in
descending score order, so in the three-vector scenario A is returned
before B with score(A) ≥ score(B). -/
theorem claim_C2_scores (st : Faiss.State) (q : Vec) (top_k : ℕ)
    (fc : Option (List String)) (ms : ℝ) (te ie : Option Vec) (alpha : ℝ)
    (res : List (Faiss.Meta × ℝ))
    (hunit : ∀ v ∈ st.vectors, sumSq v = 1) :
    (∀ r ∈ Faiss.search st q top_k fc ms, -1 ≤ r.2 ∧ r.2 ≤ 1)
    ∧ (Faiss.search st q top_k fc ms).Pairwise Faiss.scoreDesc
    ∧ (Faiss.hybrid_search st te ie alpha top_k fc ms = some res →
        ∀ r ∈ res, -1 ≤ r.2 ∧ r.2 ≤ 1) := by
  have hval : ∀ p r, Faiss.searchValidate st.product_metadata fc ms p = some r →
      r.2 = p.2 := fun p r h => (searchValidate_some _ _ _ _ _ h).1
  refine ⟨?_, ?_, ?_⟩
  · intro r hr
    unfold Faiss.search at hr
    by_cases hemp : st.product_metadata.length = 0
    · rw [if_pos hemp] at hr
      simp at hr
    rw [if_neg hemp] at hr
    rw [Faiss.breakLoop_nil_eq] at hr
    have hr1 := List.mem_of_mem_take hr
    obtain ⟨p, hp, hpv⟩ := List.mem_filterMap.mp hr1
    obtain ⟨hlt, hsc⟩ := Faiss.indexSearchScored_mem _ _ _ p hp
    have hv : st.vectors.getD p.1 [] ∈ st.vectors := by
      rw [List.getD_eq_getElem _ _ hlt]
      exact List.getElem_mem hlt
    have hb := dot_mem_Icc_of_sumSq_le_one
      (sumSq_normalize_le_one q) ((hunit _ hv).le)
    rw [(searchValidate_some _ _ _ _ _ hpv).1, hsc]
    exact hb
  · unfold Faiss.search
    by_cases hemp : st.product_metadata.length = 0
    · rw [if_pos hemp]
      simp
    rw [if_neg hemp]
    rw [Faiss.breakLoop_nil_eq]
    exact (Faiss.pairwise_filterMap_score _ hval
      (Faiss.indexSearchScored_sorted _ _ _)).sublist (List.take_sublist _ _)
  · intro hres r hr
    unfold Faiss.hybrid_search at hres
    by_cases hemp : st.product_metadata.length = 0
    · rw [if_pos hemp] at hres
      simp only [Option.some.injEq] at hres
      subst hres
      simp at hr
    rw [if_neg hemp] at hres
    by_cases hnone : te.isNone ∧ ie.isNone
    · rw [if_pos hnone] at hres
      exact absurd hres (by simp)
    rw [if_neg hnone] at hres
    simp only [Option.some.injEq] at hres
    subst hres
    have hr1 := List.mem_of_mem_take hr
    have hr2 := (List.mem_insertionSort Faiss.scoreDesc).mp hr1
    obtain ⟨idx, hidx, heq⟩ := List.mem_filterMap.mp hr2
    obtain ⟨u, hu⟩ := hybridRescore_score_form _ _ _ _ _ _ _ _ _ heq
    rw [hu]
    exact dot_mem_Icc_of_sumSq_le_one
      (hybridQuery_sumSq_le_one te ie alpha hnone) (sumSq_normalize_le_one u)

/-- Witness for C2 on a concrete one-product unit-vector index. -/
theorem claim_C2_witness :
    (∀ v ∈ ([[(1:ℝ), 0]] : List Vec), sumSq v = 1)
    ∧ ∀ r ∈ Faiss.search ⟨[[1, 0]], [mA4]⟩ [1, 0] 2 none (-1), -1 ≤ r.2 ∧ r.2 ≤ 1 := by
  have hunit : ∀ v ∈ ([[(1:ℝ), 0]] : List Vec), sumSq v = 1 := by
    intro v hv
    simp only [List.mem_singleton] at hv
    subst hv
    norm_num [sumSq]
  exact ⟨hunit,
    (claim_C2_scores ⟨[[1, 0]], [mA4]⟩ [1, 0] 2 none (-1) none none 0 [] hunit).1⟩

/-- Counterexample for C2 as stated: a query opposite to the single
stored unit vector yields `similarity_score = -1 ∉ [0, 1]` — scores
are raw cosines, never remapped into [0,1]. -/
theorem claim_C2_counterexample :
    Faiss.search ⟨[[1, 0]], [mA4]⟩ [-1, 0] 1 none (-1) = [(mA4, -1)]
    ∧ ¬ (0 ≤ (-1:ℝ)) := by
  have hq : normalize [(-1:ℝ), 0] = [-1, 0] :=
    normalize_of_sumSq_one (by norm_num [sumSq])
  have hdot : dot [(-1:ℝ), 0] [1, 0] = -1 := by norm_num [dot]
  have hhits : Faiss.indexSearchScored [[1, 0]] [-1, 0] 1 = [(0, -1)] := by
    have h0 : Faiss.indexSearchScored [[1, 0]] [-1, 0] 1
        = [(0, dot [-1, 0] [1, 0])] := rfl
    rw [h0, hdot]
  have hvalid : Faiss.searchValidate [mA4] none (-1) (0, -1) = some (mA4, -1) := by
    unfold Faiss.searchValidate
    rw [show ([mA4] : List Faiss.Meta).get? 0 = some mA4 from rfl]
    dsimp only
    rw [if_neg (by norm_num), if_neg (by simp [Faiss.categoryExcluded])]
  refine ⟨?_, by norm_num⟩
  unfold Faiss.search
  rw [if_neg (by norm_num)]
  simp only [hq]
  rw [show (1 * 3) ⊓ ([mA4] : List Faiss.Meta).length = 1 from rfl, hhits]
  unfold Faiss.breakLoop
  rw [hvalid]
  dsimp only
  rw [if_pos (by norm_num)]
  simp

/-- A metadata record with a stored image embedding but *no* stored
text embedding. -/
def mImgOnly : Faiss.Meta :=
  ⟨"A", none, none, none, none, none, none, none, some [1, 0]⟩

/-- Counterexample for C8 as stated: over an index whose single
product lacks a stored text embedding, `hybrid_search` with alpha=1.0
and no text embedding returns nothing (the candidate is skipped by the
both-embeddings check) while the pure image k-NN `search` returns the
product — the rankings differ. -/
theorem claim_C8_counterexample :
    Faiss.hybrid_search ⟨[[1, 0]], [mImgOnly]⟩ none (some [1, 0]) 1 1 none (-1)
      = some []
    ∧ Faiss.search ⟨[[1, 0]], [mImgOnly]⟩ [1, 0] 1 none (-1) = [(mImgOnly, 1)]
    ∧ ([] : List (Faiss.Meta × ℝ)) ≠ [(mImgOnly, 1)] := by
  have hq : normalize [(1:ℝ), 0] = [1, 0] :=
    normalize_of_sumSq_one (by norm_num [sumSq])
  refine ⟨?_, ?_, by simp⟩
  · unfold Faiss.hybrid_search
    rw [if_neg (by norm_num), if_neg (by simp)]
    simp only [Option.map_some', hq]
    rfl
  · have hdot : dot [(1:ℝ), 0] [1, 0] = 1 := by norm_num [dot]
    have hhits : Faiss.indexSearchScored [[1, 0]] [1, 0] 1 = [(0, 1)] := by
      have h0 : Faiss.indexSearchScored [[1, 0]] [1, 0] 1
          = [(0, dot [1, 0] [1, 0])] := rfl
      rw [h0, hdot]
    have hvalid : Faiss.searchValidate [mImgOnly] none (-1) (0, 1)
        = some (mImgOnly, 1) := by
      unfold Faiss.searchValidate
      rw [show ([mImgOnly] : List Faiss.Meta).get? 0 = some mImgOnly from rfl]
      dsimp only
      rw [if_neg (by norm_num), if_neg (by simp [Faiss.categoryExcluded])]
    unfold Faiss.search
    rw [if_neg (by norm_num)]
    simp only [hq]
    rw [show (1 * 3) ⊓ ([mImgOnly] : List Faiss.Meta).length = 1 from rfl, hhits]
    unfold Faiss.breakLoop
    rw [hvalid]
    dsimp only
    rw [if_pos (by norm_num)]
    simp

/-- C8 (amended): when every indexed product stores both raw
embeddings and is indexed under its normalized image embedding,
`hybrid_search` with alpha = 1.0 and no text embedding (no filters,
default `min_score`, `top_k ≥ 1`) returns exactly the pure image-vector
k-NN `search` results, with the stored embeddings stripped from each
result dict: same products, same order, same scores.  Without those
conditions the rankings can differ (see `claim_C8_counterexample`:
candidates lacking a stored text embedding are dropped by
`hybrid_search` only). -/
theorem claim_C8_equiv (st : Faiss.State) (img : Vec) (top_k : ℕ)
    (hcorr : List.Forall₂
        (fun md v => md.text_embedding.isSome = true
          ∧ ∃ raw, md.image_embedding = some raw ∧ v = normalize raw)
        st.product_metadata st.vectors)
    (htop : 1 ≤ top_k) :
    Faiss.hybrid_search st none (some img) 1 top_k none (-1)
      = some ((Faiss.search st img top_k none (-1)).map
          (fun r => (Faiss.stripEmb r.1, r.2))) := by
  have hlen : st.product_metadata.length = st.vectors.length := hcorr.length_eq
  by_cases hemp : st.product_metadata.length = 0
  · unfold Faiss.hybrid_search Faiss.search
    rw [if_pos hemp, if_pos hemp]
    simp
  unfold Faiss.hybrid_search Faiss.search
  rw [if_neg hemp, if_neg (by simp), if_neg hemp]
  simp only [Option.map_some', Option.map_none', Option.some.injEq]
  rw [show Faiss.hybridQuery none (some (normalize img)) 1 = normalize img from rfl]
  have hidxfact : ∀ i, i < st.vectors.length →
      ∃ md raw, st.product_metadata.get? i = some md
        ∧ md.text_embedding.isSome = true ∧ md.image_embedding = some raw
        ∧ st.vectors.getD i [] = normalize raw := by
    intro i hi
    rw [List.forall₂_iff_get] at hcorr
    obtain ⟨hl, hget⟩ := hcorr
    obtain ⟨hsome, raw, hraw, hv⟩ := hget i (by omega) hi
    refine ⟨_, raw, List.get?_eq_get (by omega), hsome, hraw, ?_⟩
    rw [List.getD_eq_getElem _ _ hi]
    simpa using hv
  have hscore_ge : ∀ (K : ℕ) p, p ∈ Faiss.indexSearchScored st.vectors (normalize img) K
      → -1 ≤ p.2 := by
    intro K p hp
    obtain ⟨hlt, hsc⟩ := Faiss.indexSearchScored_mem _ _ _ p hp
    obtain ⟨md, raw, hmd, hsome, hraw, hv⟩ := hidxfact p.1 hlt
    rw [hsc, hv]
    exact (dot_mem_Icc_of_sumSq_le_one (sumSq_normalize_le_one img)
      (sumSq_normalize_le_one raw)).1
  have hstep1 : ∀ p ∈ Faiss.indexSearchScored st.vectors (normalize img)
      (st.product_metadata.length ⊓ (top_k * 5 ⊔ 50)),
      Faiss.hybridRescore none (some (normalize img)) 1 (normalize img) none (-1)
          st.product_metadata p.1
        = some (Faiss.stripEmb (st.product_metadata.getD p.1 mA4), p.2) := by
    intro p hp
    obtain ⟨hlt, hsc⟩ := Faiss.indexSearchScored_mem _ _ _ p hp
    obtain ⟨md, raw, hmd, hsome, hraw, hv⟩ := hidxfact p.1 hlt
    obtain ⟨te, hte⟩ := Option.isSome_iff_exists.mp hsome
    unfold Faiss.hybridRescore
    rw [hmd]
    dsimp only
    rw [hte, hraw]
    dsimp only
    rw [normalize_idem, ← hv, ← hsc]
    rw [if_neg (by have := hscore_ge _ p hp; linarith)]
    rw [if_neg (by simp [Faiss.categoryExcluded])]
    rw [List.getD_eq_getD_get?, hmd]
    rfl
  have hstep3 : ∀ p ∈ Faiss.indexSearchScored st.vectors (normalize img)
      (top_k * 3 ⊓ st.product_metadata.length),
      Faiss.searchValidate st.product_metadata none (-1) p
        = some (st.product_metadata.getD p.1 mA4, p.2) := by
    intro p hp
    obtain ⟨hlt, hsc⟩ := Faiss.indexSearchScored_mem _ _ _ p hp
    obtain ⟨md, raw, hmd, -, -, -⟩ := hidxfact p.1 hlt
    unfold Faiss.searchValidate
    rw [hmd]
    dsimp only
    rw [if_neg (by have := hscore_ge _ p hp; linarith)]
    rw [if_neg (by simp [Faiss.categoryExcluded])]
    rw [List.getD_eq_getD_get?, hmd]
    rfl
  have hmapped : List.filterMap
      (Faiss.hybridRescore none (some (normalize img)) 1 (normalize img) none (-1)
        st.product_metadata)
      ((Faiss.indexSearchScored st.vectors (normalize img)
        (st.product_metadata.length ⊓ (top_k * 5 ⊔ 50))).map (fun p => p.1))
      = (Faiss.indexSearchScored st.vectors (normalize img)
          (st.product_metadata.length ⊓ (top_k * 5 ⊔ 50))).map
          (fun p => (Faiss.stripEmb (st.product_metadata.getD p.1 mA4), p.2)) := by
    rw [List.filterMap_map]
    exact filterMap_eq_map_of_some _ _ _ (fun p hp => hstep1 p hp)
  have hsorted2 : ((Faiss.indexSearchScored st.vectors (normalize img)
      (st.product_metadata.length ⊓ (top_k * 5 ⊔ 50))).map
        (fun p => (Faiss.stripEmb (st.product_metadata.getD p.1 mA4), p.2))).Pairwise
        Faiss.scoreDesc := by
    rw [List.pairwise_map]
    exact (Faiss.indexSearchScored_sorted _ _ _).imp (fun h => h)
  have hsearch_map : List.filterMap (Faiss.searchValidate st.product_metadata none (-1))
      (Faiss.indexSearchScored st.vectors (normalize img)
        (top_k * 3 ⊓ st.product_metadata.length))
      = (Faiss.indexSearchScored st.vectors (normalize img)
          (top_k * 3 ⊓ st.product_metadata.length)).map
          (fun p => (st.product_metadata.getD p.1 mA4, p.2)) :=
    filterMap_eq_map_of_some _ _ _ (fun p hp => hstep3 p hp)
  rw [hmapped, List.Sorted.insertionSort_eq hsorted2, Faiss.breakLoop_nil_eq,
    hsearch_map]
  rw [show top_k ⊔ 1 = top_k from by omega]
  rw [← List.map_take, ← List.map_take, List.map_map]
  rw [Faiss.indexSearchScored_take, Faiss.indexSearchScored_take]
  rw [show top_k ⊓ (st.product_metadata.length ⊓ (top_k * 5 ⊔ 50))
      = top_k ⊓ (top_k * 3 ⊓ st.product_metadata.length) from by omega]
  rfl

/-- A metadata record storing both embeddings, indexed (in witnesses)
under its normalized image embedding. -/
def mBoth8 : Faiss.Meta :=
  ⟨"A", none, none, none, none, none, none, some [0, 1], some [1, 0]⟩

/-- Witness for C8 on a concrete one-product index satisfying the
amended hypotheses. -/
theorem claim_C8_witness :
    (1:ℕ) ≤ 1
    ∧ Faiss.hybrid_search ⟨[[1, 0]], [mBoth8]⟩ none (some [1, 0]) 1 1 none (-1)
      = some ((Faiss.search ⟨[[1, 0]], [mBoth8]⟩ [1, 0] 1 none (-1)).map
          (fun r => (Faiss.stripEmb r.1, r.2))) := by
  refine ⟨le_refl 1, claim_C8_equiv ⟨[[1, 0]], [mBoth8]⟩ [1, 0] 1 ?_ (le_refl 1)⟩
  exact List.Forall₂.cons
    ⟨rfl, [1, 0], rfl, (normalize_of_sumSq_one (by norm_num [sumSq])).symm⟩
    List.Forall₂.nil

/-! ## Boost pipeline (`app/utils/search_service.py`, `SearchService.search`)

The per-candidate scoring of steps 5–6: cosine base similarity, the
capped first-stage boost (keyword/title/category, visual,
multimodal), and the post-cap multipliers (text-match penalty/bonus,
visual penalty, sentiment).  Python's substring test
`keyword in title_lower` is modelled as membership in the word list of
the field; `set(text_query.split())` is modelled by `List.dedup`; the
sentiment analyzer is an external hook whose multiplicative boost is a
parameter. -/

namespace BoostPipeline

/-- A fetched product as seen by the scoring loop (lower-cased word
lists for title / category / description). -/
structure SProduct where
  title : List String
  category : List String
  description : List String

/-- Cosine similarity as computed inline:
`np.dot(q, e) / (norm(q) * norm(e))`. -/
noncomputable def computeBase (q e : Vec) : ℝ := dot q e / (l2norm q * l2norm e)

/-- The keyword loop of the first-stage boost: `+0.15` per matched
title keyword, `+0.10` per matched category keyword (keywords of
length > 2 only). -/
noncomputable def textBoost (kws : List String) (p : SProduct) : ℝ :=
  ((kws.filter (fun k => 2 < k.length)).map (fun k =>
    (if k ∈ p.title then (15 / 100 : ℝ) else 0)
      + (if k ∈ p.category then (10 / 100 : ℝ) else 0))).sum

/-- The progressive visual boost for strong image matches. -/
noncomputable def visualBoost (base : ℝ) : ℝ :=
  if 85 / 100 < base then 25 / 100
  else if 75 / 100 < base then 20 / 100
  else if 65 / 100 < base then 15 / 100
  else if 55 / 100 < base then 10 / 100
  else 0

/-- The first-stage boost, capped by `min(boost, 2.0)`. -/
noncomputable def stage1Boost (text_query : Option (List String)) (image_query : Bool)
    (p : SProduct) (base : ℝ) : ℝ :=
  min (1
    + (match text_query with
       | some kws => textBoost kws.dedup p
       | none => 0)
    + (if image_query then visualBoost base else 0)
    + (if image_query ∧ text_query.isSome ∧ 60 / 100 < base then 10 / 100 else 0)) 2

/-- The product `similarity = base_similarity * boost` after the cap. -/
noncomputable def stage1Score (text_query : Option (List String)) (image_query : Bool)
    (p : SProduct) (base : ℝ) : ℝ :=
  base * stage1Boost text_query image_query p base

/-- Per-keyword weight of the dual-mode text-match score (3 for a
title match, else 2 for category, else 1 for description). -/
def kwScore (p : SProduct) (k : String) : ℕ :=
  if k ∈ p.title then 3
  else if k ∈ p.category then 2
  else if k ∈ p.description then 1
  else 0

def textMatchScore (kws : List String) (p : SProduct) : ℕ :=
  ((kws.filter (fun k => 2 < k.length)).map (kwScore p)).sum

/-- The post-cap multimodal filtering: penalties for zero/weak text
match, a bonus of up to 30% for a good one, then a 0.7 visual penalty
when the (stage-one) score is below 0.5. -/
noncomputable def stage2Multi (p : SProduct) (kws : List String) (score : ℝ) : ℝ :=
  let tms := textMatchScore kws p
  let total := (kws.filter (fun k => 2 < k.length)).length
  let ratio := (tms : ℝ) / (max (total * 3) 1 : ℕ)
  let s1 :=
    if tms = 0 then (if score < 80 / 100 then score * (30 / 100) else score)
    else if tms < 2 then score * (60 / 100)
    else score * (1 + min (ratio * (30 / 100)) (30 / 100))
  if score < 50 / 100 then s1 * (70 / 100) else s1

/-- The post-cap text-only adjustment. -/
noncomputable def stage2TextOnly (p : SProduct) (kws : List String) (score : ℝ) : ℝ :=
  let tms := textMatchScore kws p
  if 3 ≤ tms then score * (120 / 100)
  else if tms = 0 then score * (50 / 100)
  else score

/-- The post-cap image-only adjustment. -/
noncomputable def stage2ImageOnly (score : ℝ) : ℝ :=
  if score < 40 / 100 then score * (80 / 100) else score

/-- The full multiplicative pipeline for one candidate: capped stage
one, modality-dependent stage two, then the external sentiment boost
(when enabled). -/
noncomputable def finalScore (text_query : Option (List String)) (image_query : Bool)
    (enable_sentiment : Bool) (sentiment_boost : ℝ) (p : SProduct) (base : ℝ) : ℝ :=
  let score := stage1Score text_query image_query p base
  let score2 :=
    match text_query, image_query with
    | some kws, true => stage2Multi p kws.dedup score
    | some kws, false => stage2TextOnly p kws.dedup score
    | none, true => stage2ImageOnly score
    | none, false => score
  if enable_sentiment then score2 * sentiment_boost else score2

end BoostPipeline

/-- C9 (amended): the explicit `min(boost, 2.0)` cap bounds only the
*first-stage* boost, so the stage-one score never exceeds
`2 * base_similarity`; the later text-match bonus (×1.3 max) and the
sentiment hook multiply *after* the cap, and the full pipeline can
exceed the 2.0× ceiling (see `claim_C9_counterexample`), refuting the
claim that the total factor is capped at 2.0. -/
theorem claim_C9_boost_cap (text_query : Option (List String)) (image_query : Bool)
    (p : BoostPipeline.SProduct) (base : ℝ) (hb : 0 ≤ base) :
    BoostPipeline.stage1Boost text_query image_query p base ≤ 2
    ∧ BoostPipeline.stage1Score text_query image_query p base ≤ 2 * base := by
  refine ⟨min_le_right _ _, ?_⟩
  unfold BoostPipeline.stage1Score
  calc base * BoostPipeline.stage1Boost text_query image_query p base
      ≤ base * 2 := mul_le_mul_of_nonneg_left (min_le_right _ _) hb
    _ = 2 * base := mul_comm _ _

/-- Witness for C9 at a concrete nonnegative base similarity. -/
theorem claim_C9_witness :
    (0:ℝ) ≤ 1 / 2
    ∧ BoostPipeline.stage1Score (some ["watch"]) true ⟨["watch"], [], []⟩ (1 / 2)
        ≤ 2 * (1 / 2) :=
  ⟨by norm_num,
    (claim_C9_boost_cap (some ["watch"]) true ⟨["watch"], [], []⟩ (1 / 2)
      (by norm_num)).2⟩

/-- Counterexample for C9 as stated: a multimodal query with two
title-matched keywords and a strong visual match gets a capped
stage-one boost of 1.65, then the post-cap text-match bonus multiplies
by 1.3, for a total factor 2.145 > 2.0 — the final score exceeds
`2 * base_similarity`. -/
theorem claim_C9_counterexample :
    BoostPipeline.computeBase [1, 0] [12, 5] = 12 / 13
    ∧ BoostPipeline.finalScore (some ["gold", "watch"]) true false 1
        ⟨["gold", "watch"], [], []⟩ (12 / 13) = 12 / 13 * (33 / 20) * (13 / 10)
    ∧ 2 * (12 / 13 : ℝ) < 12 / 13 * (33 / 20) * (13 / 10) := by
  have hbase : BoostPipeline.computeBase [1, 0] [12, 5] = 12 / 13 := by
    unfold BoostPipeline.computeBase
    rw [show l2norm [(1:ℝ), 0] = 1 from by
      rw [l2norm, show sumSq [(1:ℝ), 0] = 1 by norm_num [sumSq], Real.sqrt_one]]
    rw [show l2norm [(12:ℝ), 5] = 13 from by
      rw [l2norm, show sumSq [(12:ℝ), 5] = 13 ^ 2 by norm_num [sumSq],
        Real.sqrt_sq (by norm_num)]]
    norm_num [dot]
  have hded : (["gold", "watch"] : List String).dedup = ["gold", "watch"] := by decide
  have htb : BoostPipeline.textBoost ["gold", "watch"]
      ⟨["gold", "watch"], [], []⟩ = 3 / 10 := by
    unfold BoostPipeline.textBoost
    rw [show (["gold", "watch"] : List String).filter (fun k => 2 < k.length)
        = ["gold", "watch"] from by decide]
    simp only [List.map_cons, List.map_nil, List.sum_cons, List.sum_nil]
    rw [if_pos (by decide : ("gold" : String) ∈
          (⟨["gold", "watch"], [], []⟩ : BoostPipeline.SProduct).title),
      if_neg (by decide : ¬ ("gold" : String) ∈
          (⟨["gold", "watch"], [], []⟩ : BoostPipeline.SProduct).category),
      if_pos (by decide : ("watch" : String) ∈
          (⟨["gold", "watch"], [], []⟩ : BoostPipeline.SProduct).title),
      if_neg (by decide : ¬ ("watch" : String) ∈
          (⟨["gold", "watch"], [], []⟩ : BoostPipeline.SProduct).category)]
    norm_num
  have hs1 : BoostPipeline.stage1Boost (some ["gold", "watch"]) true
      ⟨["gold", "watch"], [], []⟩ (12 / 13) = 33 / 20 := by
    unfold BoostPipeline.stage1Boost
    dsimp only
    rw [hded, htb]
    rw [show BoostPipeline.visualBoost (12 / 13) = 25 / 100 from by
      unfold BoostPipeline.visualBoost
      rw [if_pos (by norm_num)]]
    rw [if_pos rfl, if_pos ⟨rfl, rfl, by norm_num⟩]
    rw [min_eq_left (by norm_num)]
    norm_num
  have htms : BoostPipeline.textMatchScore ["gold", "watch"]
      ⟨["gold", "watch"], [], []⟩ = 6 := by decide
  have hsc : BoostPipeline.stage1Score (some ["gold", "watch"]) true
      ⟨["gold", "watch"], [], []⟩ (12 / 13) = 12 / 13 * (33 / 20) := by
    unfold BoostPipeline.stage1Score
    rw [hs1]
  have hfin : BoostPipeline.finalScore (some ["gold", "watch"]) true false 1
      ⟨["gold", "watch"], [], []⟩ (12 / 13) = 12 / 13 * (33 / 20) * (13 / 10) := by
    unfold BoostPipeline.finalScore
    dsimp only
    rw [if_neg (by simp)]
    unfold BoostPipeline.stage2Multi
    rw [hded, htms, hsc]
    dsimp only
    rw [show ((["gold", "watch"] : List String).filter
        (fun k => 2 < k.length)).length = 2 from by decide]
    rw [if_neg (by norm_num), if_neg (by norm_num), if_neg (by norm_num)]
    rw [show ((max (2 * 3) 1 : ℕ) : ℝ) = 6 from by norm_num]
    rw [min_eq_left (by norm_num)]
    norm_num
  exact ⟨hbase, hfin, by norm_num⟩

/-! ## SearchService (`app/services/search_service.py`)

The cached search flow of `SearchService.search`: query fingerprint,
truthiness cache-hit test, embedding write-through caches, and a miss
path that never completes.  Modelling notes: MD5 fingerprints are the
identity (injective hash); the CLIP encoder is an opaque deterministic
function; the Redis namespaces (`embedding:text`, `embedding:image`,
`search`) are separate association lists, as the prefixed keys never
collide; TTL is not modelled (entries persist — the "TTL not expired"
regime); wall-clock timing fields are omitted.  Three integration
faults shape the model.  First, `_generate_search_cache_key` evaluates
`json.dumps(filters, sort_keys=True)` whenever `filters` is truthy,
but the module never imports `json`, so the call raises NameError
before the cache is even consulted.  Second, on a cache miss the
method calls `self.faiss_index.search(fused_embedding, k=top_k * 2)`,
but `FAISSIndex.search` has no parameter named `k`, so the call raises
TypeError.  Third, the result loop would call
`self.faiss_index.get_product_metadata(pid)`, a method `FAISSIndex`
does not define.  Consequently no cache miss ever reaches the result
loop, the diversity re-ranking, or the `cache_search_results` write:
an uncaught exception is modelled as `SvcOutcome.raised c`, carrying
the cache state as mutated up to the raise (Redis writes performed
before the exception persist). -/

namespace SearchSvc

/-- An image query, identified by its content (md5 modelled as
identity). -/
abbrev Img := ℕ

/-- The `filters` dict (`category` / `price_min` / `price_max`).  In
the embedding `some f : Option Filters` stands for a truthy
(non-empty) filters dict; Python treats both `None` and `{}` as
falsy, and both are modelled as `none`. -/
structure Filters where
  category : Option String
  price_min : Option ℝ
  price_max : Option ℝ

/-- One result record (embedding-free projection of the index
metadata plus the similarity score), the element type of cached
search-result lists. -/
structure SvcResult where
  product_id : String
  title : String
  price : Option ℝ
  category : Option String
  image_url : String
  brand : Option String
  rating : Option ℝ
  similarity_score : ℝ

/-- The search-result cache key: the full query fingerprint
(text, image hash, alpha, fusion method, filters). -/
structure SKey where
  text : Option String
  image_hash : Option Img
  alpha : ℝ
  method : String
  filters : Option Filters

/-- The cache contents visible to the service.  `available = false`
models an unreachable store: every get misses and every set is
dropped, as in `RedisCacheManager`. -/
structure CacheSt where
  available : Bool
  embText : List (String × Vec)
  embImage : List (Img × Vec)
  searchRes : List (SKey × List SvcResult)

def cacheGetText (c : CacheSt) (k : String) : Option Vec :=
  if c.available then (c.embText.find? (fun p => p.1 == k)).map (fun p => p.2)
  else none

def cacheSetText (c : CacheSt) (k : String) (v : Vec) : CacheSt :=
  if c.available then { c with embText := (k, v) :: c.embText } else c

def cacheGetImage (c : CacheSt) (k : Img) : Option Vec :=
  if c.available then (c.embImage.find? (fun p => p.1 == k)).map (fun p => p.2)
  else none

def cacheSetImage (c : CacheSt) (k : Img) (v : Vec) : CacheSt :=
  if c.available then { c with embImage := (k, v) :: c.embImage } else c

noncomputable def cacheGetSearch (c : CacheSt) (k : SKey) : Option (List SvcResult) :=
  if c.available then (c.searchRes.find? (fun p => decide (p.1 = k))).map (fun p => p.2)
  else none

/-- Embedding of `_get_or_compute_image_embedding`: cache hit, or encode and
write through. -/
def getOrComputeImage (encImage : Img → Vec) (c : CacheSt) (img : Img) :
    Vec × CacheSt :=
  match cacheGetImage c img with
  | some v => (v, c)
  | none => (encImage img, cacheSetImage c img (encImage img))

/-- Embedding of `_get_or_compute_text_embedding`. -/
def getOrComputeText (encText : String → Vec) (c : CacheSt) (t : String) :
    Vec × CacheSt :=
  match cacheGetText c t with
  | some v => (v, c)
  | none => (encText t, cacheSetText c t (encText t))

/-- The metadata envelope (cache-hit flag; timings not modelled). -/
structure SvcMeta where
  cache_hit : Bool

/-- The observable outcome of one `search` call: a normal return
(result list, metadata, cache state after the call) or an uncaught
exception.  `raised` carries the cache state as mutated up to the
raise — Redis writes performed before the exception persist even
though the request fails. -/
inductive SvcOutcome where
  | ok (results : List SvcResult) (meta : SvcMeta) (cache : CacheSt)
  | raised (cache : CacheSt)

/-- The miss path of `SearchService.search` (source lines 86-162):
resolve the image embedding (write-through), then the text embedding,
fuse them, then call `self.faiss_index.search(fused_embedding,
k=top_k * 2)`.  `FusionEngine.fuse` raises ValueError when both
embeddings are absent; in every other case the faiss call itself
raises TypeError, because `FAISSIndex.search` has no parameter named
`k` (and the result loop would call `get_product_metadata`, which
`FAISSIndex` does not define).  Either way the path never reaches the
result loop, the diversity re-ranking, or the `cache_search_results`
write, so the arguments beyond the embedding resolution and the fuse
call cannot influence the outcome: the call raises, with the embedding
write-throughs as the only cache mutations. -/
noncomputable def svc_missPath (encText : String → Vec) (encImage : Img → Vec)
    (text_query : Option String) (image_query : Option Img)
    (alpha : ℝ) (fusion_method : String) (cache : CacheSt) : SvcOutcome :=
  let c1 := match image_query with
    | some img => (getOrComputeImage encImage cache img).2
    | none => cache
  let image_embedding := match image_query with
    | some img => some ((getOrComputeImage encImage cache img).1)
    | none => none
  let c2 := match text_query with
    | some t => (getOrComputeText encText c1 t).2
    | none => c1
  let text_embedding := match text_query with
    | some t => some ((getOrComputeText encText c1 t).1)
    | none => none
  match FusionEngine.fuse image_embedding text_embedding alpha fusion_method with
  | none => SvcOutcome.raised c2
  | some _ => SvcOutcome.raised c2

set_option linter.unusedVariables false in
/-- Embedding of `SearchService.search`.  With truthy `filters` the
fingerprint helper `_generate_search_cache_key` evaluates
`json.dumps(filters, sort_keys=True)` although the module never
imports `json`: NameError before the cache lookup, with no cache
mutation yet.  With falsy `filters` the fingerprint is built (its
filters component is the empty string, modelled as the `none` field),
the truthiness cache test `if cached_results:` runs (an empty cached
list counts as a miss), a hit truncates to `top_k` and returns with
`cache_hit = True` and an untouched cache, and a miss takes
`svc_missPath`, which always raises.  `st` and `diversity_weight` are
carried for signature fidelity; the index is never successfully
consulted and the re-ranking is unreachable. -/
noncomputable def svc_search (encText : String → Vec) (encImage : Img → Vec)
    (st : Faiss.State) (text_query : Option String) (image_query : Option Img)
    (top_k : ℕ) (alpha : ℝ) (fusion_method : String) (filters : Option Filters)
    (diversity_weight : ℝ) (cache : CacheSt) : SvcOutcome :=
  match filters with
  | some _ => SvcOutcome.raised cache
  | none =>
    let cache_key : SKey := ⟨text_query, image_query, alpha, fusion_method, none⟩
    match cacheGetSearch cache cache_key with
    | some cached_results =>
      if cached_results = [] then
        svc_missPath encText encImage text_query image_query alpha fusion_method cache
      else SvcOutcome.ok (cached_results.take top_k) (SvcMeta.mk true) cache
    | none =>
      svc_missPath encText encImage text_query image_query alpha fusion_method cache

/-- The cache state after both embedding resolutions of the miss
path. -/
noncomputable def resolvedCache (encText : String → Vec) (encImage : Img → Vec)
    (text_query : Option String) (image_query : Option Img) (c : CacheSt) : CacheSt :=
  let c1 := match image_query with
    | some img => (getOrComputeImage encImage c img).2
    | none => c
  match text_query with
  | some t => (getOrComputeText encText c1 t).2
  | none => c1

theorem getSearch_setText (c : CacheSt) (kt : String) (v : Vec) (k : SKey) :
    cacheGetSearch (cacheSetText c kt v) k = cacheGetSearch c k := by
  by_cases h : c.available <;> simp [cacheGetSearch, cacheSetText, h]

theorem getSearch_setImage (c : CacheSt) (ki : Img) (v : Vec) (k : SKey) :
    cacheGetSearch (cacheSetImage c ki v) k = cacheGetSearch c k := by
  by_cases h : c.available <;> simp [cacheGetSearch, cacheSetImage, h]

theorem getSearch_gocImage (enc : Img → Vec) (c : CacheSt) (img : Img) (k : SKey) :
    cacheGetSearch ((getOrComputeImage enc c img).2) k = cacheGetSearch c k := by
  unfold getOrComputeImage
  cases h : cacheGetImage c img <;> simp only [h]
  · rw [getSearch_setImage]

theorem getSearch_gocText (enc : String → Vec) (c : CacheSt) (t : String) (k : SKey) :
    cacheGetSearch ((getOrComputeText enc c t).2) k = cacheGetSearch c k := by
  unfold getOrComputeText
  cases h : cacheGetText c t <;> simp only [h]
  · rw [getSearch_setText]

/-- The embedding write-throughs of the miss path never touch the
`search` namespace: the search-result cache reads the same after the
raise as before the call. -/
theorem getSearch_resolvedCache (encT : String → Vec) (encI : Img → Vec)
    (tq : Option String) (iq : Option Img) (c : CacheSt) (k : SKey) :
    cacheGetSearch (resolvedCache encT encI tq iq c) k = cacheGetSearch c k := by
  unfold resolvedCache
  cases tq <;> cases iq <;> dsimp only
  · exact getSearch_gocImage encI c _ k
  · exact getSearch_gocText encT c _ k
  · rw [getSearch_gocText, getSearch_gocImage]

/-- The miss path always raises, leaving exactly the embedding
write-throughs in the cache. -/
theorem missPath_raised (encT : String → Vec) (encI : Img → Vec)
    (tq : Option String) (iq : Option Img) (alpha : ℝ) (fm : String) (c : CacheSt) :
    svc_missPath encT encI tq iq alpha fm c
      = SvcOutcome.raised (resolvedCache encT encI tq iq c) := by
  unfold svc_missPath resolvedCache
  dsimp only
  split <;> rfl

end SearchSvc

/-- C5 (code bug): the spec's idempotence property is unachievable on
this code because no cache miss ever completes.  With truthy `filters`
the call raises NameError inside `_generate_search_cache_key` (the
module never imports `json`) before the cache is consulted; with falsy
`filters` a miss reaches `self.faiss_index.search(fused_embedding,
k=top_k * 2)` and raises TypeError (`FAISSIndex.search` has no
parameter named `k`; the subsequent `get_product_metadata` does not
exist on `FAISSIndex` either).  The raise leaves the search-result
namespace of the cache unchanged, so nothing is ever written under the
query fingerprint and the repeated identical query misses and raises
again instead of returning `cache_hit = true`. -/
theorem claim_C5_miss_raises (encT : String → Vec) (encI : SearchSvc.Img → Vec)
    (st : Faiss.State) (tq : Option String) (iq : Option SearchSvc.Img)
    (top_k : ℕ) (alpha : ℝ) (fm : String) (dw : ℝ) (c : SearchSvc.CacheSt) :
    (SearchSvc.cacheGetSearch c ⟨tq, iq, alpha, fm, none⟩ = none →
      ∃ c', SearchSvc.svc_search encT encI st tq iq top_k alpha fm none dw c
          = SearchSvc.SvcOutcome.raised c'
        ∧ SearchSvc.cacheGetSearch c' ⟨tq, iq, alpha, fm, none⟩ = none)
    ∧ (∀ f, SearchSvc.svc_search encT encI st tq iq top_k alpha fm (some f) dw c
        = SearchSvc.SvcOutcome.raised c) := by
  constructor
  · intro hget
    refine ⟨SearchSvc.resolvedCache encT encI tq iq c, ?_, ?_⟩
    · unfold SearchSvc.svc_search
      dsimp only
      rw [hget]
      exact SearchSvc.missPath_raised encT encI tq iq alpha fm c
    · rw [SearchSvc.getSearch_resolvedCache]
      exact hget
  · intro f
    rfl

/-- Concrete query fingerprint used at concrete inputs (text-only
query "q", alpha 0.7, weighted_avg, no filters). -/
noncomputable def exKey5 : SearchSvc.SKey :=
  ⟨some "q", none, 7 / 10, "weighted_avg", none⟩

/-- An available, initially empty cache. -/
def exC0 : SearchSvc.CacheSt := ⟨true, [], [], []⟩

/-- Witness for C5 at the failing input: a text-only query against an
available empty cache misses, the call raises, and the search-result
namespace of the post-raise cache is still empty. -/
theorem claim_C5_witness :
    SearchSvc.cacheGetSearch exC0 ⟨some "q", none, 7 / 10, "weighted_avg", none⟩ = none
    ∧ ∃ c', SearchSvc.svc_search (fun _ => [1]) (fun _ => [1]) Faiss.emptyState
          (some "q") none 1 (7 / 10) "weighted_avg" none 0 exC0
        = SearchSvc.SvcOutcome.raised c'
      ∧ SearchSvc.cacheGetSearch c'
          ⟨some "q", none, 7 / 10, "weighted_avg", none⟩ = none := by
  have hget : SearchSvc.cacheGetSearch exC0
      ⟨some "q", none, 7 / 10, "weighted_avg", none⟩ = none := by
    unfold SearchSvc.cacheGetSearch exC0
    simp
  exact ⟨hget, (claim_C5_miss_raises (fun _ => [1]) (fun _ => [1]) Faiss.emptyState
    (some "q") none 1 (7 / 10) "weighted_avg" 0 exC0).1 hget⟩

/-- Counterexample for C10 as stated: at the canonical zero-result
query (text "q" against the empty index, available empty cache) the
first execution raises TypeError instead of completing with an empty
result list, and nothing — in particular no empty list — is written to
the search-result cache: the post-raise cache holds only the text
embedding write-through. -/
theorem claim_C10_counterexample :
    SearchSvc.svc_search (fun _ => [1]) (fun _ => [1]) Faiss.emptyState (some "q")
        none 1 (7 / 10) "weighted_avg" none 0 exC0
      = SearchSvc.SvcOutcome.raised (SearchSvc.CacheSt.mk true [("q", [1])] [] [])
    ∧ SearchSvc.cacheGetSearch (SearchSvc.CacheSt.mk true [("q", [1])] [] [])
        ⟨some "q", none, 7 / 10, "weighted_avg", none⟩ = none := by
  constructor
  · rw [show SearchSvc.svc_search (fun _ => [1]) (fun _ => [1]) Faiss.emptyState
        (some "q") none 1 (7 / 10) "weighted_avg" none 0 exC0
      = SearchSvc.svc_missPath (fun _ => [1]) (fun _ => [1]) (some "q") none
          (7 / 10) "weighted_avg" exC0 from by
      unfold SearchSvc.svc_search
      dsimp only
      rw [show SearchSvc.cacheGetSearch exC0
          ⟨some "q", none, 7 / 10, "weighted_avg", none⟩ = none from by
        unfold SearchSvc.cacheGetSearch exC0
        simp]]
    rw [SearchSvc.missPath_raised]
    rw [show SearchSvc.resolvedCache (fun _ => [1]) (fun _ => [1]) (some "q") none exC0
        = SearchSvc.CacheSt.mk true [("q", [1])] [] [] from by
      unfold SearchSvc.resolvedCache SearchSvc.getOrComputeText
      dsimp only
      rw [show SearchSvc.cacheGetText exC0 "q" = none from by
        unfold SearchSvc.cacheGetText exC0
        simp]
      dsimp only
      unfold SearchSvc.cacheSetText exC0
      simp]
  · unfold SearchSvc.cacheGetSearch
    simp

/-- C10 (amended): the hit test `if cached_results:` is a truthiness
check, so a search-cache state holding the empty list under the query
fingerprint is treated as a miss — and the miss path then raises
TypeError at the faiss call, so the cached empty list persists
unobserved and `cache_hit` can never become true for it.  The premise
of the original claim, however, is unreachable: no execution ever
writes to the search-result cache (every miss raises before the
`cache_search_results` line), so an empty list can only sit in the
cache if an external writer put it there, and the only calls that
return at all are hits on a pre-populated non-empty entry, which
truncate it to `top_k`, report `cache_hit = true` and leave the cache
unchanged. -/
theorem claim_C10_truthiness (encT : String → Vec) (encI : SearchSvc.Img → Vec)
    (st : Faiss.State) (tq : Option String) (iq : Option SearchSvc.Img)
    (top_k : ℕ) (alpha : ℝ) (fm : String) (dw : ℝ) (c : SearchSvc.CacheSt) :
    (SearchSvc.cacheGetSearch c ⟨tq, iq, alpha, fm, none⟩ = some [] →
      ∃ c', SearchSvc.svc_search encT encI st tq iq top_k alpha fm none dw c
          = SearchSvc.SvcOutcome.raised c'
        ∧ SearchSvc.cacheGetSearch c' ⟨tq, iq, alpha, fm, none⟩ = some [])
    ∧ (∀ filters rs m c',
        SearchSvc.svc_search encT encI st tq iq top_k alpha fm filters dw c
          = SearchSvc.SvcOutcome.ok rs m c' →
        m.cache_hit = true ∧ c' = c ∧ filters = none
          ∧ ∃ r, SearchSvc.cacheGetSearch c ⟨tq, iq, alpha, fm, none⟩ = some r
              ∧ r ≠ [] ∧ rs = r.take top_k) := by
  constructor
  · intro hget
    refine ⟨SearchSvc.resolvedCache encT encI tq iq c, ?_, ?_⟩
    · unfold SearchSvc.svc_search
      dsimp only
      rw [hget]
      dsimp only
      rw [if_pos rfl]
      exact SearchSvc.missPath_raised encT encI tq iq alpha fm c
    · rw [SearchSvc.getSearch_resolvedCache]
      exact hget
  · intro filters rs m c' h
    cases filters with
    | some f =>
      rw [show SearchSvc.svc_search encT encI st tq iq top_k alpha fm (some f) dw c
          = SearchSvc.SvcOutcome.raised c from rfl] at h
      simp only [reduceCtorEq] at h
    | none =>
      unfold SearchSvc.svc_search at h
      dsimp only at h
      cases hget : SearchSvc.cacheGetSearch c ⟨tq, iq, alpha, fm, none⟩ with
      | none =>
        rw [hget] at h
        dsimp only at h
        rw [SearchSvc.missPath_raised] at h
        simp only [reduceCtorEq] at h
      | some r =>
        rw [hget] at h
        dsimp only at h
        by_cases hr : r = []
        · rw [if_pos hr] at h
          rw [SearchSvc.missPath_raised] at h
          simp only [reduceCtorEq] at h
        · rw [if_neg hr] at h
          simp only [SearchSvc.SvcOutcome.ok.injEq] at h
          obtain ⟨hrs, hm, hc⟩ := h
          exact ⟨by rw [← hm], hc.symm, rfl, r, rfl, hr, hrs.symm⟩

/-- A concrete result record an external writer might have cached. -/
noncomputable def exRes : SearchSvc.SvcResult :=
  ⟨"p1", "t", none, none, "", none, none, 1⟩

/-- A cache pre-seeded by an external writer with a non-empty result
list under the example fingerprint (the service itself can never
populate it). -/
noncomputable def exCseed : SearchSvc.CacheSt :=
  ⟨true, [], [], [(exKey5, [exRes])]⟩

/-- Witness for C10 (amended) at the pre-seeded cache: the non-empty
entry hits, and the theorem recovers `cache_hit = true`, the unchanged
cache and the truncated cached list. -/
theorem claim_C10_witness :
    SearchSvc.svc_search (fun _ => [1]) (fun _ => [1]) Faiss.emptyState (some "q")
        none 1 (7 / 10) "weighted_avg" none 0 exCseed
      = SearchSvc.SvcOutcome.ok [exRes] (SearchSvc.SvcMeta.mk true) exCseed
    ∧ ((SearchSvc.SvcMeta.mk true).cache_hit = true ∧ exCseed = exCseed
        ∧ (none : Option SearchSvc.Filters) = none
        ∧ ∃ r, SearchSvc.cacheGetSearch exCseed
            ⟨some "q", none, 7 / 10, "weighted_avg", none⟩ = some r
          ∧ r ≠ [] ∧ [exRes] = r.take 1) := by
  have heval : SearchSvc.svc_search (fun _ => [1]) (fun _ => [1]) Faiss.emptyState
      (some "q") none 1 (7 / 10) "weighted_avg" none 0 exCseed
      = SearchSvc.SvcOutcome.ok [exRes] (SearchSvc.SvcMeta.mk true) exCseed := by
    unfold SearchSvc.svc_search
    dsimp only
    rw [show SearchSvc.cacheGetSearch exCseed
        ⟨some "q", none, 7 / 10, "weighted_avg", none⟩ = some [exRes] from by
      unfold SearchSvc.cacheGetSearch exCseed exKey5
      rw [if_pos rfl, List.find?_cons_of_pos _ (by simp)]
      rfl]
    dsimp only
    rw [if_neg (by simp)]
    rfl
  refine ⟨heval, ?_⟩
  exact (claim_C10_truthiness (fun _ => [1]) (fun _ => [1]) Faiss.emptyState
    (some "q") none 1 (7 / 10) "weighted_avg" 0 exCseed).2 none [exRes]
    (SearchSvc.SvcMeta.mk true) exCseed heval

end CMRS
